import Mathlib

/-
Verification of the ccgportfolios extraction and consolidation core.

Shallow embedding conventions:
  - A spreadsheet cell is `Cell`: blank (pandas None / NaN), a string, or a
    number.  Numeric cell contents are modelled as exact rationals; the
    Python float value NaN is modelled as `Option.none` throughout (every
    function that can produce NaN returns `Option ℚ`).
  - A sheet is a total cell function together with its shape; `iatE` models
    `df.iat[r, c]`, which raises IndexError when out of bounds, so it
    returns `Except String Cell`.  Reads the Python code performs only at
    indices that are in bounds by construction use `Sheet.cell` directly.
  - Fallible extractors return `Except String`; the error strings mirror
    the Python exception messages.
  - Python str(float) rendering of a numeric cell is modelled by
    `pyNumStr`; the claims only ever inspect such strings for (absence of)
    alphabetic substrings, which the model preserves.
  - Python str.lower / str.strip are modelled for the ASCII contents that
    appear in the templates.
-/

namespace CCG

/-- One spreadsheet cell after `read_excel(..., dtype=object).replace(nan, None)`:
None, a string, or a number. -/
inductive Cell where
  | blank : Cell
  | str (s : String) : Cell
  | num (q : ℚ) : Cell
  deriving DecidableEq

/-- A sheet: shape plus a total cell function (cells outside the shape are
never meaningful; bounds-checked access is `iatE`). -/
structure Sheet where
  nRows : Nat
  nCols : Nat
  cell : Nat → Nat → Cell

/-- `df.iat[r, c]`: raises IndexError when out of bounds. -/
def iatE (sh : Sheet) (r c : Nat) : Except String Cell :=
  if r < sh.nRows ∧ c < sh.nCols then .ok (sh.cell r c) else .error "IndexError"

/-- Whitespace characters stripped by Python str.strip / skipped by float():
the ASCII whitespace set (the templates contain no other whitespace once
non-breaking spaces are replaced). -/
def isPyWs (c : Char) : Bool :=
  c = ' ' || c = '\t' || c = '\n' || c = '\r' || c = '\x0b' || c = '\x0c'

/-- Strip leading and trailing whitespace from a character list. -/
def pyStrip (l : List Char) : List Char :=
  ((l.dropWhile isPyWs).reverse.dropWhile isPyWs).reverse

/-- `normalize_str` on a string: replace the non-breaking space U+00A0 by a
space (single-character str.replace is a character map), then strip. -/
def pyNormalize (s : String) : String :=
  ⟨pyStrip (s.data.map (fun c => if c = '\u00A0' then ' ' else c))⟩

/-- Python str.lower, character-wise (the template contents are ASCII). -/
def lowerStr (s : String) : String := ⟨s.data.map Char.toLower⟩

/-- Python str.upper, character-wise (the template contents are ASCII). -/
def upperStr (s : String) : String := ⟨s.data.map Char.toUpper⟩

/-- Stand-in for Python str() of a numeric cell value.  Claims only rely on
such strings being nonempty and containing no alphabetic characters, which
holds for this rendering (digits, minus sign, dot, slash). -/
def pyNumStr (q : ℚ) : String :=
  if q.den = 1 then toString q.num ++ ".0"
  else toString q.num ++ "." ++ toString q.den

/-- `normalize_str` applied to a cell (None gives "", numbers go through
str()); in `find_cell` a None cell is skipped, equivalently its normalized
text is empty. -/
def normalizeCell (x : Cell) : String :=
  match x with
  | .blank => ""
  | .str s => pyNormalize s
  | .num q => pyNumStr q

/-- `astype(str)` on a raw (un-replaced) pandas cell: NaN renders as "nan". -/
def pyAstype (x : Cell) : String :=
  match x with
  | .blank => "nan"
  | .str s => s
  | .num q => pyNumStr q

/-- astype(str).str.strip().str.lower() used for the Arqaam Total stop row. -/
def rawLower (x : Cell) : String :=
  lowerStr ⟨pyStrip (pyAstype x).data⟩

/-- Does the character list start with the given pattern? -/
def startsWithCL : List Char → List Char → Bool
  | [], _ => true
  | _ :: _, [] => false
  | p :: ps, c :: cs => p = c && startsWithCL ps cs

/-- Substring containment on character lists (Python `pat in s`). -/
def containsCL (pat : List Char) : List Char → Bool
  | [] => pat.isEmpty
  | c :: cs => startsWithCL pat (c :: cs) || containsCL pat cs

/-- Python substring test `pat in s`. -/
def strContains (s pat : String) : Bool :=
  containsCL pat.data s.data

/-- Word character for the regex word boundary assertion. -/
def isWordChar (c : Char) : Bool := c.isAlphanum || c = '_'

/-- Does the pattern occur at the head of `l` with word boundaries on both
sides (`prev` is the character just before `l`, if any)? -/
def bMatchAt (pat l : List Char) (prev : Option Char) : Bool :=
  startsWithCL pat l
    && (match prev with | none => true | some c => !isWordChar c)
    && (match l.drop pat.length with | [] => true | c :: _ => !isWordChar c)

/-- Search for a word-boundary-delimited occurrence of `pat`. -/
def bSearch (pat : List Char) : Option Char → List Char → Bool
  | prev, [] => bMatchAt pat [] prev
  | prev, c :: cs => bMatchAt pat (c :: cs) prev || bSearch pat (some c) cs

/-- Case-insensitive matcher for the anchor regex `\bConsolidated\b`. -/
def consolidatedMatch (s : String) : Bool :=
  bSearch "consolidated".data none (lowerStr s).data

/-- Search for `w1` then zero or more whitespace characters then `w2`
(the regex `w1\s*w2`; `w2` starts with a non-space letter, so the maximal
whitespace run is the only candidate gap). -/
def gapSearch (w1 w2 : List Char) : List Char → Bool
  | [] => false
  | c :: cs =>
      (startsWithCL w1 (c :: cs)
        && startsWithCL w2 (((c :: cs).drop w1.length).dropWhile isPyWs))
      || gapSearch w1 w2 cs

/-- Case-insensitive matcher for `Group\s*Summary`. -/
def groupSummaryMatch (s : String) : Bool :=
  gapSearch "group".data "summary".data (lowerStr s).data

/-- Case-insensitive matcher for
`Purchasing\s*Power|Buying\s*Power|Purchase\s*Power`. -/
def ppMatch (s : String) : Bool :=
  let l := (lowerStr s).data
  gapSearch "purchasing".data "power".data l
    || gapSearch "buying".data "power".data l
    || gapSearch "purchase".data "power".data l

/-- Case-insensitive matcher for the escaped literal client name. -/
def emadMatch (s : String) : Bool :=
  containsCL "emad farah".data (lowerStr s).data

/-- `find_cell` restricted to rows `rStart ≤ r < rEnd` (the full function is
`find_cell`; the restricted form also models searching an `iloc` row
window, whose coordinates the caller re-offsets to absolute rows).
Row-major first match of nonempty normalized text satisfying the matcher. -/
def find_cell_from (sh : Sheet) (rStart rEnd : Nat) (m : String → Bool) :
    Option (Nat × Nat) :=
  (List.range' rStart (rEnd - rStart)).findSome? (fun r =>
    ((List.range sh.nCols).find? (fun c =>
      let s := normalizeCell (sh.cell r c)
      s ≠ "" && m s)).map (fun c => (r, c)))

/-- `find_cell(df, pattern)`: first matching cell in row-major order. -/
def find_cell (sh : Sheet) (m : String → Bool) : Option (Nat × Nat) :=
  find_cell_from sh 0 sh.nRows m

/-! ### Number coercion (`coerce_number`) -/

/-- Natural number value of a digit list (the empty list counts as 0, as in
the integer or fractional part of "5." and ".5"). -/
def digitsVal : List Char → Nat
  | [] => 0
  | c :: cs => (c.toNat - '0'.toNat) * 10 ^ cs.length + digitsVal cs

/-- Parse `digits [. digits]` with at least one digit in total, as Python
float() does for its mantissa. -/
def parseMantissa (l : List Char) : Option ℚ :=
  let ip := l.takeWhile Char.isDigit
  let rest := l.dropWhile Char.isDigit
  match rest with
  | [] => if ip.isEmpty then none else some (digitsVal ip)
  | '.' :: fp =>
      if fp.all Char.isDigit && !(ip.isEmpty && fp.isEmpty) then
        some ((digitsVal ip : ℚ) + (digitsVal fp : ℚ) / (10 : ℚ) ^ fp.length)
      else none
  | _ => none

/-- Parse an optionally signed exponent digit string. -/
def parseExpPart (l : List Char) : Option Int :=
  match l with
  | '-' :: ds => if ds.all Char.isDigit && !ds.isEmpty then some (-(digitsVal ds : Int)) else none
  | '+' :: ds => if ds.all Char.isDigit && !ds.isEmpty then some (digitsVal ds : Int) else none
  | ds => if ds.all Char.isDigit && !ds.isEmpty then some (digitsVal ds : Int) else none

/-- Mantissa with optional `e`/`E` exponent. -/
def parseMantExp (l : List Char) : Option ℚ :=
  let m := l.takeWhile (fun c => !(c = 'e' || c = 'E'))
  let rest := l.dropWhile (fun c => !(c = 'e' || c = 'E'))
  match rest with
  | [] => parseMantissa m
  | _ :: expPart =>
      match parseMantissa m, parseExpPart expPart with
      | some mv, some ev => some (mv * (10 : ℚ) ^ ev)
      | _, _ => none

/-- Signed float literal body. -/
def parseSigned (l : List Char) : Option ℚ :=
  match l with
  | '-' :: rest => (parseMantExp rest).map (fun q => -q)
  | '+' :: rest => parseMantExp rest
  | _ => parseMantExp l

/-- Model of Python float(s) on the strings reachable in this code base:
strips surrounding whitespace, then an optionally signed decimal literal
with optional exponent.  (The inf/nan literals and underscore digit
grouping accepted by float() do not occur on any path exercised here and
are not modelled: they would require non-rational results.) -/
def parseFloat? (s : String) : Option ℚ :=
  parseSigned (pyStrip s.data)

/-- Characters kept by the cleanup regex `[^\d\.\-\(\)]` substitution. -/
def isNumChar (c : Char) : Bool :=
  c.isDigit || c = '.' || c = '-' || c = '(' || c = ')'

/-- The cleanup-and-parse step after the regex strip: empty fails, a fully
parenthesized value is negated (accounting convention), otherwise parse. -/
def coerceStripped (l2 : List Char) : Option ℚ :=
  if l2.isEmpty then none
  else if l2.head? = some '(' && l2.getLast? = some ')' then
    parseFloat? ⟨'-' :: (l2.drop 1).dropLast⟩
  else parseFloat? ⟨l2⟩

/-- After comma removal: a trailing percent sign is stripped (the value is
NOT divided by 100 here), otherwise the cleanup regex keeps only
digits/dot/minus/parens and the result is parsed. -/
def coerceAfterComma (l1 : List Char) : Option ℚ :=
  if l1.getLast? = some '%' then parseFloat? ⟨l1.dropLast⟩
  else coerceStripped (l1.filter isNumChar)

/-- `coerce_number` on the text path, after normalization produced the
nonempty string (as a character list): first `s.replace(",", "")`. -/
def coerceText (l : List Char) : Option ℚ :=
  coerceAfterComma (l.filter (fun c => c ≠ ','))

/-- `coerce_number`: native numbers pass through, text is normalized,
de-comma-ed, percent-stripped or regex-cleaned and parsed; every failure
is NaN (`none`), never an exception (the function is total). -/
def coerce_number (x : Cell) : Option ℚ :=
  match x with
  | .blank => none
  | .num q => some q
  | .str t =>
      if pyNormalize t = "" then none else coerceText (pyNormalize t).data

/-- `safe_percent_to_ratio`: values already in [-1.2, 1.2] are returned
unchanged, anything else is divided by 100; NaN propagates. -/
def safe_percent_to_ratio (v : Option ℚ) : Option ℚ :=
  match v with
  | none => none
  | some q => if -(6/5 : ℚ) ≤ q ∧ q ≤ (6/5 : ℚ) then some q else some (q / 100)

/-! ### Ticker cleaning and empty-row trimming -/

/-- Remove every occurrence of ".CA" (str.replace scans left to right). -/
def removeCA : List Char → List Char
  | '.' :: 'C' :: 'A' :: t => removeCA t
  | c :: t => c :: removeCA t
  | [] => []

/-- The denylist of structural labels rejected as tickers. -/
def tickerJunk : List String :=
  ["NAN", "GROUP", "NAME", "TOTAL", "SUMMARY", "GROUPSUMMARY", "NAV", "STOCKS",
   "TOTALCASH", "TOTALNAV", "CASH", "PURCHASINGPOWER", "MV", "WEIGHT",
   "QUANTITY", "NET"]

/-- Characters kept by the ticker cleanup regex `[^A-Z0-9\-_]`. -/
def isTickerChar (c : Char) : Bool :=
  ('A' ≤ c && c ≤ 'Z') || c.isDigit || c = '-' || c = '_'

/-- `clean_ticker`: normalize, reject empty and placeholder text, strip the
".CA" market suffix, uppercase, keep alphanumeric/hyphen/underscore, and
reject the denylist. -/
def clean_ticker (x : Cell) : String :=
  let s := normalizeCell x
  if s = "" || lowerStr s = "nan" || lowerStr s = "none" || lowerStr s = "null" then ""
  else
    let s1 := upperStr (String.mk (removeCA s.data))
    let s2 : String := ⟨s1.data.filter isTickerChar⟩
    if tickerJunk.contains s2 then "" else s2

/-- Does a cell count as nonempty for `trim_empty_rows` (normalized text
nonempty and not the literal "nan")? -/
def cellNonEmptyNorm (x : Cell) : Bool :=
  let s := normalizeCell x
  s ≠ "" && lowerStr s ≠ "nan"

/-- Does row `r` of the sheet survive `trim_empty_rows`? -/
def rowNonEmpty (sh : Sheet) (r : Nat) : Bool :=
  (List.range sh.nCols).any (fun c => cellNonEmptyNorm (sh.cell r c))

/-! ### Neighborhood recovery search (`choose_nearest_numeric_threshold`) -/

/-- The row/column offsets `-radius .. radius` in scan order. -/
def rangeOff (radius : Nat) : List Int :=
  (List.range (2 * radius + 1)).map (fun i => Int.ofNat i - (radius : Int))

/-- The square box of offsets scanned by the nested
`for dr in range(-r, r+1): for dc in range(-r, r+1)` loops, in scan order. -/
def boxOffsets (radius : Nat) : List (Int × Int) :=
  (rangeOff radius).flatMap (fun dr => (rangeOff radius).map (fun dc => (dr, dc)))

/-- The numeric value the scan sees at offset `o` from the anchor (none if
out of bounds or not coercible). -/
def numericAt (sh : Sheet) (r c : Nat) (o : Int × Int) : Option ℚ :=
  let rr := (r : Int) + o.1
  let cc := (c : Int) + o.2
  if 0 ≤ rr ∧ 0 ≤ cc ∧ rr < (sh.nRows : Int) ∧ cc < (sh.nCols : Int) then
    coerce_number (sh.cell rr.toNat cc.toNat)
  else none

/-- The value at offset `o` if it also meets the magnitude threshold. -/
def qualAt (sh : Sheet) (r c : Nat) (minv : ℚ) (o : Int × Int) : Option ℚ :=
  match numericAt sh r c o with
  | some v => if minv ≤ |v| then some v else none
  | none => none

/-- Manhattan distance of an offset. -/
def manh (o : Int × Int) : Nat := o.1.natAbs + o.2.natAbs

/-- Loop state of `choose_nearest_numeric_threshold` (`best`, `best_d`,
`fallback`, `fallback_d`; the distance sentinels start at 10^9). -/
structure NearSt where
  best : Option ℚ
  bd : Nat
  fb : Option ℚ
  fd : Nat
  deriving DecidableEq

def nearInit : NearSt := ⟨none, 10 ^ 9, none, 10 ^ 9⟩

/-- One iteration of the scan loop. -/
def nearStep (sh : Sheet) (r c : Nat) (minv : ℚ) (st : NearSt) (o : Int × Int) :
    NearSt :=
  match numericAt sh r c o with
  | none => st
  | some v =>
      let d := manh o
      let st1 := if d < st.fd then { st with fb := some v, fd := d } else st
      if minv ≤ |v| ∧ d < st.bd then { st1 with best := some v, bd := d } else st1

/-- `choose_nearest_numeric_threshold(df, r, c, min_value, max_radius)`. -/
def choose_nearest_numeric_threshold (sh : Sheet) (r c : Nat) (minv : ℚ)
    (radius : Nat) : Option ℚ :=
  let st := (boxOffsets radius).foldl (nearStep sh r c minv) nearInit
  match st.best with
  | some v => some v
  | none => st.fb

/-- `_value_to_right`: first coercible value within `maxSteps` cells to the
right in the same row (stopping at the sheet edge). -/
def value_to_right (sh : Sheet) (r c maxSteps : Nat) : Option ℚ :=
  ((List.range maxSteps).map (· + 1)).findSome? (fun dc =>
    if c + dc < sh.nCols then coerce_number (sh.cell r (c + dc)) else none)

/-! ### Record shapes of the three output tables -/

structure SummaryRow where
  group : String
  portfolio : String
  nav : Option ℚ
  cash : Option ℚ
  pp : Option ℚ
  source : String
  deriving DecidableEq

structure Holding where
  group : String
  portfolio : String
  ticker : String
  weight_ratio : Option ℚ
  deriving DecidableEq

structure TotalsRow where
  group : String
  portfolio : String
  total_nav : Option ℚ
  total_cash : Option ℚ
  total_pp : Option ℚ
  deriving DecidableEq

/-- Decidable equality for extractor results. -/
instance exceptDecEq {ε α : Type} [DecidableEq ε] [DecidableEq α] :
    DecidableEq (Except ε α) := fun x y =>
  match x, y with
  | .ok a, .ok b =>
      if h : a = b then .isTrue (by rw [h]) else .isFalse (by intro hc; cases hc; exact h rfl)
  | .error a, .error b =>
      if h : a = b then .isTrue (by rw [h]) else .isFalse (by intro hc; cases hc; exact h rfl)
  | .ok _, .error _ => .isFalse (by intro hc; cases hc)
  | .error _, .ok _ => .isFalse (by intro hc; cases hc)

/-! ### Arqaam / "New Portfolios" extractor -/

/-- Normalized lowercased texts of the non-None cells of a row (the list
comprehension in the header-row scans). -/
def rowStrsLower (sh : Sheet) (r : Nat) : List String :=
  (List.range sh.nCols).filterMap (fun c =>
    match sh.cell r c with
    | .blank => none
    | x => some (lowerStr (normalizeCell x)))

/-- The Arqaam holdings header row: simultaneous presence of a "shares"
token and a token containing both "%" and "nav". -/
def arq_header_row? (sh : Sheet) : Option Nat :=
  (List.range sh.nRows).find? (fun r =>
    (rowStrsLower sh r).any (fun v => strContains v "shares")
      && (rowStrsLower sh r).any (fun v => strContains v "%" && strContains v "nav"))

/-- Column name assigned by `read_excel(header=h)` to column `j` (blank
header cells become "Unnamed: j"; duplicate-name mangling does not change
which column a first-match search selects). -/
def headerName (sh : Sheet) (h j : Nat) : String :=
  match sh.cell h j with
  | .blank => "Unnamed: " ++ toString j
  | .str s => s
  | .num q => pyNumStr q

/-- First column whose name contains "% nav" or "%" (the weight column). -/
def arq_weight_pos? (sh : Sheet) (h : Nat) : Option Nat :=
  (List.range sh.nCols).find? (fun j =>
    let cl := lowerStr (headerName sh h j)
    strContains cl "% nav" || strContains cl "%")

/-- Absolute row indices of the data rows below the header. -/
def dataRowIdxs (sh : Sheet) (h : Nat) : List Nat :=
  List.range' (h + 1) (sh.nRows - (h + 1))

/-- Data rows surviving `trim_empty_rows` (labels in the sliced frame are
the original positions, which the `loc[:first_total-1]` cut relies on;
we carry absolute sheet rows, an equivalent labelling). -/
def arq_trimmed (sh : Sheet) (h : Nat) : List Nat :=
  (dataRowIdxs sh h).filter (fun r => rowNonEmpty sh r)

/-- The first surviving row whose first column reads "total" after
astype(str).strip().lower(). -/
def arq_first_total? (sh : Sheet) (h : Nat) : Option Nat :=
  (arq_trimmed sh h).find? (fun r => rawLower (sh.cell r 0) = "total")

/-- Rows kept after the Total cut (`tmp.loc[:first_total - 1]`). -/
def arq_kept (sh : Sheet) (h : Nat) : List Nat :=
  match arq_first_total? sh h with
  | some T => (arq_trimmed sh h).filter (fun r => r < T)
  | none => arq_trimmed sh h

/-- One holdings record from a kept row (empty cleaned tickers drop the
row, mirroring the length-0 filter after `clean_ticker`). -/
def arq_mk_holding (sh : Sheet) (wpos : Nat) (gname : String) (r : Nat) :
    Option Holding :=
  let t := clean_ticker (sh.cell r 0)
  if t = "" then none
  else some { group := gname, portfolio := gname, ticker := t,
              weight_ratio := safe_percent_to_ratio (coerce_number (sh.cell r wpos)) }

/-- The Arqaam holdings table. -/
def arqaamHoldings (sh : Sheet) (gname : String) : List Holding :=
  match arq_header_row? sh with
  | none => []
  | some h =>
      match arq_weight_pos? sh h with
      | none => []
      | some w => (arq_kept sh h).filterMap (arq_mk_holding sh w gname)

/-- `extract_new_portfolios`: cash from B2, NAV from B5 (IndexError when the
sheet is too small), optional FX multiplication, holdings cut at the Total
row. -/
def extract_new_portfolios (path gname : String) (sh : Sheet) (fx : Option ℚ) :
    Except String (SummaryRow × List Holding × TotalsRow) := do
  let c1 ← iatE sh 1 1
  let c2 ← iatE sh 4 1
  let cash0 := coerce_number c1
  let nav0 := coerce_number c2
  let cash := match fx with | some f => cash0.map (· * f) | none => cash0
  let nav := match fx with | some f => nav0.map (· * f) | none => nav0
  let hds := arqaamHoldings sh gname
  .ok ({ group := gname, portfolio := gname, nav := nav, cash := cash,
         pp := none, source := path },
       hds,
       { group := gname, portfolio := gname, total_nav := nav,
         total_cash := cash, total_pp := none })

/-! ### Consolidated-table extractor (CFH / Yasser / R&R) -/

/-- Is row `r` the consolidated holdings header (a stock/ticker-like label
and a weight/percent-like label in the same row)? -/
def consHeaderRowB (sh : Sheet) (r : Nat) : Bool :=
  let vs := rowStrsLower sh r
  vs.any (fun v => strContains v "stock" || v = "ticker" || v = "symbol")
    && vs.any (fun v => strContains v "weight" || strContains v "%")

/-- Header search in the bounded window below the anchor row. -/
def cons_header_row? (sh : Sheet) (r0 : Nat) : Option Nat :=
  (List.range' r0 (min sh.nRows (r0 + 100) - r0)).find? (fun r => consHeaderRowB sh r)

/-- First column whose stripped lowercased name contains a stock-like key. -/
def cons_stock_pos? (sh : Sheet) (h : Nat) : Option Nat :=
  (List.range sh.nCols).find? (fun j =>
    let cl := lowerStr (pyNormalize (headerName sh h j))
    strContains cl "stock" || strContains cl "ticker" || strContains cl "symbol"
      || strContains cl "code" || strContains cl "isin")

/-- First column whose stripped lowercased name contains "weight" or "%". -/
def cons_weight_pos? (sh : Sheet) (h : Nat) : Option Nat :=
  (List.range sh.nCols).find? (fun j =>
    let cl := lowerStr (pyNormalize (headerName sh h j))
    strContains cl "weight" || strContains cl "%")

/-- One consolidated holdings record. -/
def cons_mk_holding (sh : Sheet) (sp wp : Nat) (g pf : String) (r : Nat) :
    Option Holding :=
  let t := clean_ticker (sh.cell r sp)
  if t = "" then none
  else some { group := g, portfolio := pf, ticker := t,
              weight_ratio := safe_percent_to_ratio (coerce_number (sh.cell r wp)) }

/-- Holdings inside the consolidated table. -/
def consHoldings (sh : Sheet) (h : Nat) (g pf : String) : List Holding :=
  match cons_stock_pos? sh h, cons_weight_pos? sh h with
  | some sp, some wp =>
      ((dataRowIdxs sh h).filter (fun r => rowNonEmpty sh r)).filterMap
        (cons_mk_holding sh sp wp g pf)
  | _, _ => []

/-- Direct right-read with neighborhood fallback, shared by the purchasing
power and NAV reads. -/
def rightOrNear (sh : Sheet) (rr cc : Nat) : Option ℚ :=
  match value_to_right sh rr cc 10 with
  | some v => some v
  | none => choose_nearest_numeric_threshold sh rr cc 1000 8

/-- Does the column-J cell of row `rr` contain "net" (nonempty, lowercased)? -/
def netRowB (sh : Sheet) (rr : Nat) : Bool :=
  let s := lowerStr (normalizeCell (sh.cell rr 9))
  strContains s "net" && s ≠ ""

/-- The row the NAV scan selects: first row strictly below the anchor whose
column-J text contains "net". -/
def nav_net_row? (sh : Sheet) (r0 : Nat) : Option Nat :=
  (List.range' (r0 + 1) (sh.nRows - (r0 + 1))).find? (fun rr => netRowB sh rr)

/-- The NAV scan loop: walks rows below the anchor, reading column index 9
(an IndexError when the sheet has at most 9 columns and the loop runs); on
the first row whose column-J text contains "net" it reads the value to the
right (with neighborhood fallback) and stops. -/
def navScanGo (sh : Sheet) : List Nat → Except String (Option ℚ)
  | [] => .ok none
  | rr :: rest => do
      let _cv ← iatE sh rr 9
      if netRowB sh rr then .ok (rightOrNear sh rr 9)
      else navScanGo sh rest

/-- NAV location in the consolidated extractor. -/
def navScan (sh : Sheet) (r0 : Nat) : Except String (Option ℚ) :=
  navScanGo sh (List.range' (r0 + 1) (sh.nRows - (r0 + 1)))

/-- `_extract_consolidated_from_sheet`. -/
def extract_consolidated (path sheetName : String) (sh : Sheet) (g pf : String) :
    Except String (SummaryRow × List Holding) :=
  match find_cell sh consolidatedMatch with
  | none => .error ("Consolidated anchor not found: " ++ path ++ " / " ++ sheetName)
  | some (r0, _c0) => do
      let header? := cons_header_row? sh r0
      let hds := match header? with
        | some h => consHoldings sh h g pf
        | none => []
      let ppStart := header?.getD r0
      let pp := match find_cell_from sh ppStart (min sh.nRows (ppStart + 400)) ppMatch with
        | some (rr, cc) => rightOrNear sh rr cc
        | none => none
      let nav ← navScan sh r0
      .ok ({ group := g, portfolio := pf, nav := nav, cash := none,
             pp := pp, source := path }, hds)

/-! ### Positions-by-group extractor -/

/-- The Total Cash / Total NAV label scan below the Group Summary anchor
(labels overwrite on repeat; the value read one column right of the anchor
column can raise IndexError). -/
def posTotalsGo (sh : Sheet) (c0 : Nat) (acc : Option ℚ × Option ℚ) :
    List Nat → Except String (Option ℚ × Option ℚ)
  | [] => .ok acc
  | r :: rest => do
      let lab := lowerStr (normalizeCell (sh.cell r c0))
      let vcell ← iatE sh r (c0 + 1)
      let v := coerce_number vcell
      let acc1 :=
        if lab = "total cash" then (v, acc.2)
        else if lab = "total nav" then (acc.1, v)
        else acc
      posTotalsGo sh c0 acc1 rest

/-- The holdings header row: anchor-column text exactly "stock". -/
def pos_header_row? (sh : Sheet) (r0 c0 : Nat) : Option Nat :=
  (List.range' r0 (sh.nRows - r0)).find? (fun r =>
    lowerStr (normalizeCell (sh.cell r c0)) = "stock")

/-- The holdings loop: tickers in the anchor column, weight three columns
right (IndexError when that column is out of bounds), stopping at the
first empty or junk ticker. -/
def posRowsGo (sh : Sheet) (c0 : Nat) (gname : String) :
    Nat → Nat → Except String (List Holding)
  | 0, _ => .ok []
  | Nat.succ fuel, rr => do
      let t := clean_ticker (sh.cell rr c0)
      if t = "" then .ok []
      else do
        let wcell ← iatE sh rr (c0 + 3)
        let rest ← posRowsGo sh c0 gname fuel (rr + 1)
        .ok ({ group := gname, portfolio := gname, ticker := t,
               weight_ratio := safe_percent_to_ratio (coerce_number wcell) } :: rest)

/-- One sheet of `extract_positions_by_group`: none when skipped (name
"ungrouped" or missing anchor), otherwise the sheet contribution. -/
def posSheet (path name : String) (sh : Sheet) :
    Except String (Option (SummaryRow × List Holding × TotalsRow)) := do
  if lowerStr (pyNormalize name) = "ungrouped" then .ok none
  else match find_cell sh groupSummaryMatch with
    | none => .ok none
    | some (r0, c0) => do
        let totals ← posTotalsGo sh c0 (none, none)
          (List.range' r0 (min sh.nRows (r0 + 40) - r0))
        let rows ← match pos_header_row? sh r0 c0 with
          | none => .ok []
          | some h => posRowsGo sh c0 name (sh.nRows - (h + 1)) (h + 1)
        .ok (some
          ({ group := name, portfolio := name, nav := totals.2,
             cash := totals.1, pp := none, source := path },
           rows,
           { group := name, portfolio := name, total_nav := totals.2,
             total_cash := totals.1, total_pp := none }))

/-- `extract_positions_by_group`: one portfolio per sheet; sheets without a
Group Summary anchor (or named Ungrouped) are silently skipped. -/
def extract_positions_by_group (path : String) :
    List (String × Sheet) →
    Except String (List SummaryRow × List Holding × List TotalsRow)
  | [] => .ok ([], [], [])
  | (name, sh) :: rest => do
      let this ← posSheet path name sh
      let (ss, hh, tt) ← extract_positions_by_group path rest
      match this with
      | none => .ok (ss, hh, tt)
      | some (s, h, t) => .ok (s :: ss, h ++ hh, t :: tt)

/-! ### Mode-B customer extractor ("Emad") -/

/-- Sheet lookup in a workbook (read_excel with a named sheet). -/
def lookupSheet (wb : List (String × Sheet)) (name : String) : Option Sheet :=
  (wb.find? (fun p => p.1 = name)).map (fun p => p.2)

/-- The bounded window search for the "net" label near the client name:
first match in row-major order over rows `r..r+24`, columns `c..c+14`. -/
def modeB_net_cell? (sh : Sheet) (r c : Nat) : Option (Nat × Nat) :=
  (List.range' r (min sh.nRows (r + 25) - r)).findSome? (fun rr =>
    ((List.range' c (min sh.nCols (c + 15) - c)).find? (fun cc =>
      let s := lowerStr (normalizeCell (sh.cell rr cc))
      s = "net" || (s ≠ "" && strContains s "net" && decide (s.length ≤ 12)))).map
      (fun cc => (rr, cc)))

/-- The NAV read one column right of the located "net" label. -/
def modeB_nav (sh : Sheet) (r c : Nat) : Option ℚ :=
  match modeB_net_cell? sh r c with
  | some (rr, cc) =>
      if cc + 1 < sh.nCols then coerce_number (sh.cell rr (cc + 1)) else none
  | none => none

/-- The stock value read, guarded against a missing value column. -/
def modeB_sv (sh : Sheet) (vcol rr : Nat) : Option ℚ :=
  if vcol < sh.nCols then coerce_number (sh.cell rr vcol) else none

/-- The weight computation `stock_value / nav`, NaN when NAV is NaN, NAV is
zero, or the stock value is NaN. -/
def modeB_weight (nav sv : Option ℚ) : Option ℚ :=
  match nav, sv with
  | some n, some v => if n ≠ 0 then some (v / n) else none
  | _, _ => none

/-- The Mode-B holdings loop (fuel counts the remaining rows to the bottom
of the sheet; stops at the first empty or junk cleaned ticker). -/
def modeB_rows (sh : Sheet) (scol vcol : Nat) (nav : Option ℚ) :
    Nat → Nat → List Holding
  | 0, _ => []
  | Nat.succ fuel, rr =>
      let t := clean_ticker (sh.cell rr scol)
      if t = "" then []
      else { group := "Emad", portfolio := "Emad", ticker := t,
             weight_ratio := modeB_weight nav (modeB_sv sh vcol rr) }
             :: modeB_rows sh scol vcol nav fuel (rr + 1)

/-- `extract_customer_position_mode_b`. -/
def extract_customer_position_mode_b (path : String)
    (wb : List (String × Sheet)) :
    Except String (SummaryRow × List Holding × TotalsRow) :=
  match lookupSheet wb "Retail>5M" with
  | none => .error "Worksheet Retail>5M not found"
  | some sh =>
      match find_cell sh emadMatch with
      | none => .error "Client not found: Emad Farah in sheet Retail>5M"
      | some (r, c) =>
          let cash := if c + 1 < sh.nCols then coerce_number (sh.cell r (c + 1)) else none
          let nav := modeB_nav sh r c
          let scol := c + 2
          let vcol := scol + 2
          let hds :=
            if scol < sh.nCols then modeB_rows sh scol vcol nav (sh.nRows - (r + 1)) (r + 1)
            else []
          .ok ({ group := "Emad", portfolio := "Emad", nav := nav, cash := cash,
                 pp := none, source := path },
               hds,
               { group := "Emad", portfolio := "Emad", total_nav := nav,
                 total_cash := cash, total_pp := none })

/-! ### Consolidation engine: presence matrix (`build_presence_matrix`) -/

/-- One row of the presence matrix: ticker, one weight-percentage cell per
portfolio (aligned with the portfolio list), presence string, presence
count. -/
structure MatrixRow where
  ticker : String
  cells : List (Option ℚ)
  presence : String
  presence_count : Nat
  deriving DecidableEq

/-- Code-point lexicographic strict order on character lists (the order
Python string comparison and the pandas index sort use). -/
def clLt : List Char → List Char → Bool
  | _, [] => false
  | [], _ :: _ => true
  | a :: as, b :: bs =>
      if a.toNat < b.toNat then true
      else if b.toNat < a.toNat then false
      else clLt as bs

/-- Strict lexicographic order on strings. -/
def strLtB (a b : String) : Bool := clLt a.data b.data

/-- The matching non-strict order. -/
def strLeB (a b : String) : Bool := !clLt b.data a.data

/-- The `(ticker, portfolio)` cell of the weight pivot: pandas groups the
holding rows by the two keys and sums the weight percentages skipping NaN
(an all-NaN group sums to 0); pairs with no rows are NaN after the column
reindex. -/
def cellFor (hs : List Holding) (t pf : String) : Option ℚ :=
  let rel := hs.filter (fun hd => hd.ticker = t && Holding.portfolio hd = pf)
  if rel.isEmpty then none
  else some ((rel.filterMap (fun hd =>
    ( Holding.weight_ratio hd).map (fun w => w * 100))).foldl (· + ·) 0)

/-- `presence_count`: the presence pivot holds `max(1) = 1` for every pair
with at least one holding row; after fillna(0) the row sum counts the
portfolios with such a pair. -/
def pcFor (hs : List Holding) (ports : List String) (t : String) : Nat :=
  (ports.filter (fun pf => hs.any (fun hd =>
    hd.ticker = t && Holding.portfolio hd = pf))).length

/-- One presence-matrix row for ticker `t`. -/
def mkMatrixRow (hs : List Holding) (ports : List String) (t : String) :
    MatrixRow :=
  { ticker := t, cells := ports.map (fun pf => cellFor hs t pf),
    presence := toString (pcFor hs ports t) ++ "/" ++ toString ports.length,
    presence_count := pcFor hs ports t }

/-- The `_sum_weight` sort key: row sum of the portfolio cells after
fillna(0). -/
def sumw (row : MatrixRow) : ℚ :=
  (row.cells.map (fun o => o.getD 0)).sum

/-- The two-key sort order used by
`sort_values(["presence_count", "_sum_weight"], ascending=[False, False])`
(pandas lexsort, a stable sort on these two keys). -/
def rowLe (a b : MatrixRow) : Prop :=
  b.presence_count < a.presence_count
    ∨ (a.presence_count = b.presence_count ∧ sumw b ≤ sumw a)

instance : DecidableRel rowLe := fun a b =>
  inferInstanceAs (Decidable (b.presence_count < a.presence_count
    ∨ (a.presence_count = b.presence_count ∧ sumw b ≤ sumw a)))

/-- `build_presence_matrix(holdings_df, portfolios)`: empty input gives the
empty table; otherwise one row per distinct ticker, rows initially in the
ascending ticker order produced by the pivot index (pivot_table sorts its
index), then stably sorted by descending presence count and descending
weight sum. -/
def build_presence_matrix (hs : List Holding) (ports : List String) :
    List MatrixRow :=
  if hs.isEmpty then []
  else
    List.insertionSort rowLe
      ((List.insertionSort (fun a b : String => strLeB a b = true)
        ((hs.map Holding.ticker).dedup)).map (mkMatrixRow hs ports))

/-! ### The claim-words variant of the neighborhood search (for refinement
comparison only) -/

/-- Offsets at Manhattan distance at most `radius`: the neighborhood the
claim says is searched. -/
def diamondOffsets (radius : Nat) : List (Int × Int) :=
  (boxOffsets radius).filter (fun o => manh o ≤ radius)

/-- Modelled from the claim wording, not from the source: the same search
restricted to cells within Manhattan distance `radius` of the anchor.
Compared against `choose_nearest_numeric_threshold`, whose loops scan the
full square box. -/
def choose_nearest_diamond (sh : Sheet) (r c : Nat) (minv : ℚ)
    (radius : Nat) : Option ℚ :=
  let st := (diamondOffsets radius).foldl (nearStep sh r c minv) nearInit
  match st.best with
  | some v => some v
  | none => st.fb

/-! ### Reference first-minimum function used to characterize the scan -/

/-- First minimum of `f`-values over a list, keyed by Manhattan distance:
returns the distance and value of the earliest listed offset achieving the
least distance among those where `f` is defined. -/
def firstMinBy (f : Int × Int → Option ℚ) : List (Int × Int) → Option (Nat × ℚ)
  | [] => none
  | o :: rest =>
      match f o with
      | none => firstMinBy f rest
      | some v =>
          match firstMinBy f rest with
          | none => some (manh o, v)
          | some (d2, v2) => if manh o ≤ d2 then some (manh o, v) else some (d2, v2)

/-- Merge of two first-minimum results (left wins ties). -/
def mergeMin : Option (Nat × ℚ) → Option (Nat × ℚ) → Option (Nat × ℚ)
  | none, b => b
  | some a, none => some a
  | some (d, v), some (d2, v2) => if d ≤ d2 then some (d, v) else some (d2, v2)

/-- The contribution of a single offset to the first-minimum search. -/
def sing (f : Int × Int → Option ℚ) (o : Int × Int) : Option (Nat × ℚ) :=
  match f o with
  | none => none
  | some v => some (manh o, v)

/-- Decode a first-minimum result into a (value, distance) pair with the
scan loop sentinel 10^9 standing for "not found yet". -/
def stRep (x : Option (Nat × ℚ)) : Option ℚ × Nat :=
  match x with
  | none => (none, 10 ^ 9)
  | some (d, v) => (some v, d)

/-- The scan-loop state encoding a pair of first-minimum results. -/
def mkSt (q n : Option (Nat × ℚ)) : NearSt :=
  ⟨(stRep q).1, (stRep q).2, (stRep n).1, (stRep n).2⟩

/-! ### Concrete fixtures -/

/-- A 2 by 2 sheet whose only numeric cell sits at offset (1,1) from the
top-left corner: Chebyshev distance 1, Manhattan distance 2. -/
def cornerSheet : Sheet :=
  ⟨2, 2, fun r c => if r = 1 && c = 1 then .num 5000 else .blank⟩

/-- A 1 by 1 blank sheet. -/
def blankSheet : Sheet := ⟨1, 1, fun _ _ => .blank⟩

/-- A 3 by 3 sheet with text but no structural anchors. -/
def noAnchorSheet : Sheet :=
  ⟨3, 3, fun r c =>
    if r = 0 && c = 0 then .str "Holdings"
    else if r = 1 && c = 0 then .str "ABC" else if r = 1 && c = 1 then .num 10
    else .blank⟩

/-- Consolidated-template sheet for the NAV placement example: anchor at
(5,1), "Net" at (12,9), value 50000 at (12,11). -/
def consNavSheet : Sheet :=
  ⟨13, 12, fun r c =>
    if r = 5 && c = 1 then .str "Consolidated"
    else if r = 12 && c = 9 then .str "Net"
    else if r = 12 && c = 11 then .num 50000
    else .blank⟩

/-- The same sheet with the "Net" token moved above the anchor row. -/
def consNavAboveSheet : Sheet :=
  ⟨13, 12, fun r c =>
    if r = 5 && c = 1 then .str "Consolidated"
    else if r = 3 && c = 9 then .str "Net"
    else if r = 3 && c = 11 then .num 50000
    else .blank⟩

/-- A consolidated sheet with the anchor but no holdings header, no
purchasing power label and no "net" row: every secondary value is absent. -/
def consBareSheet : Sheet :=
  ⟨8, 10, fun r c => if r = 0 && c = 0 then .str "Consolidated" else .blank⟩

/-- Arqaam sheet for the fixed-cell FX example: cash 1000 in B2, NAV 5000
in B5, no holdings header. -/
def arqFxSheet : Sheet :=
  ⟨5, 2, fun r c =>
    if r = 1 && c = 1 then .num 1000
    else if r = 4 && c = 1 then .num 5000
    else .blank⟩

/-- Rows 0..4 of the Arqaam Total-cutoff example: a holdings header at row
2, one real holding at row 3, the Total stop row at row 4. -/
def arqTotalBase (r c : Nat) : Cell :=
  if r = 2 && c = 0 then .str "Name"
  else if r = 2 && c = 1 then .str "Shares"
  else if r = 2 && c = 2 then .str "% NAV"
  else if r = 3 && c = 0 then .str "ABC"
  else if r = 3 && c = 1 then .num 10
  else if r = 3 && c = 2 then .str "12.5%"
  else if r = 4 && c = 0 then .str "Total"
  else if r = 4 && c = 2 then .str "100%"
  else .blank

/-- Arqaam sheet with a holdings block, a Total stop row at row 4, and junk
content below it. -/
def arqTotalSheet : Sheet :=
  ⟨6, 3, fun r c =>
    if r ≤ 4 then arqTotalBase r c
    else if r = 5 && c = 0 then .str "BELOWX"
    else if r = 5 && c = 2 then .str "50%"
    else .blank⟩

/-- The same sheet with different content strictly below the Total row. -/
def arqTotalSheetB : Sheet :=
  ⟨6, 3, fun r c =>
    if r ≤ 4 then arqTotalBase r c
    else if r = 5 && c = 0 then .str "OTHERY"
    else if r = 5 && c = 2 then .str "99%"
    else .blank⟩

/-- Mode-B sheet: client name at (0,0), cash at (0,1), "Net" at (0,3) with
NAV 100000 at (0,4), one stock row with value 5000. -/
def emadSheet : Sheet :=
  ⟨3, 5, fun r c =>
    if r = 0 && c = 0 then .str "Emad Farah"
    else if r = 0 && c = 1 then .num 250
    else if r = 0 && c = 3 then .str "Net"
    else if r = 0 && c = 4 then .num 100000
    else if r = 1 && c = 2 then .str "ABC"
    else if r = 1 && c = 4 then .num 5000
    else .blank⟩

/-- The Mode-B workbook containing `emadSheet` under the fixed sheet name. -/
def emadWb : List (String × Sheet) := [("Retail>5M", emadSheet)]

/-- A workbook whose Retail>5M sheet does not mention the client. -/
def noEmadWb : List (String × Sheet) := [("Retail>5M", noAnchorSheet)]

/-- Holdings input whose tickers arrive in descending order with identical
weights: input order and alphabetical ticker order disagree on the tie. -/
def tieHoldings : List Holding :=
  [{ group := "G", portfolio := "P", ticker := "ZZZ", weight_ratio := some (1/20) },
   { group := "G", portfolio := "P", ticker := "AAA", weight_ratio := some (1/20) }]

/-- Three-portfolio holdings: AAA held by P1 and P2, BBB held by P1 only. -/
def demoHoldings : List Holding :=
  [{ group := "G", portfolio := "P1", ticker := "AAA", weight_ratio := some (1/10) },
   { group := "G", portfolio := "P2", ticker := "AAA", weight_ratio := some (1/5) },
   { group := "G", portfolio := "P1", ticker := "BBB", weight_ratio := some (3/10) }]

def demoPorts : List String := ["P1", "P2", "P3"]

/-- Strict ticker order on matrix rows (code-point order). -/
def tickLt (a b : MatrixRow) : Prop :=
  strLtB (MatrixRow.ticker a) (MatrixRow.ticker b) = true

/-- The three-key strict order the presence-matrix rows actually satisfy:
descending presence count, then descending weight sum, remaining ties in
ascending ticker order (the pivot index order, which the stable two-key
sort preserves). -/
def rowLt3 (a b : MatrixRow) : Prop :=
  MatrixRow.presence_count b < MatrixRow.presence_count a
    ∨ (MatrixRow.presence_count a = MatrixRow.presence_count b
        ∧ (sumw b < sumw a
            ∨ (sumw a = sumw b
                ∧ strLtB (MatrixRow.ticker a) (MatrixRow.ticker b) = true)))

/-! ## Helper lemmas -/

theorem map_noop {α : Type} (f : α → α) :
    ∀ l : List α, (∀ c ∈ l, f c = c) → l.map f = l
  | [], _ => rfl
  | c :: cs, h => by
      simp only [List.map_cons, h c (List.mem_cons_self c cs),
        map_noop f cs (fun x hx => h x (List.mem_cons_of_mem c hx))]

theorem dropWhile_noop {α : Type} (p : α → Bool) :
    ∀ l : List α, (∀ c ∈ l, p c = false) → l.dropWhile p = l
  | [], _ => rfl
  | c :: cs, h => by
      simp only [List.dropWhile_cons, h c (List.mem_cons_self c cs), Bool.false_eq_true,
        if_false]

theorem pyStrip_noop (l : List Char) (h : ∀ c ∈ l, isPyWs c = false) :
    pyStrip l = l := by
  unfold pyStrip
  rw [dropWhile_noop _ l h, dropWhile_noop _ l.reverse
    (fun c hc => h c (List.mem_reverse.mp hc)), List.reverse_reverse]

theorem parseSigned_not_sign (l : List Char)
    (h1 : l.head? ≠ some '-') (h2 : l.head? ≠ some '+') :
    parseSigned l = parseMantExp l := by
  match l with
  | [] => rfl
  | c :: cs =>
      simp only [List.head?_cons, ne_eq, Option.some.injEq] at h1 h2
      unfold parseSigned
      split
      · next heq => cases heq; exact absurd rfl h1
      · next heq => cases heq; exact absurd rfl h2
      · rfl

/-! ## Claim C7 -/

/-- Claim C7: for every numeric value v, `safe_percent_to_ratio` returns v
unchanged when v lies in the closed interval [-1.2, 1.2] and returns v/100
otherwise; in particular 12.5 maps to 0.125, 0.125 maps to 0.125, and the
boundary value 1.2 maps to 1.2 (already-a-ratio, not 0.012). -/
theorem safe_percent_to_ratio_spec :
    (∀ v : ℚ, -(1.2 : ℚ) ≤ v → v ≤ (1.2 : ℚ) → safe_percent_to_ratio (some v) = some v)
    ∧ (∀ v : ℚ, ¬(-(1.2 : ℚ) ≤ v ∧ v ≤ (1.2 : ℚ)) →
        safe_percent_to_ratio (some v) = some (v / 100))
    ∧ safe_percent_to_ratio (some (12.5 : ℚ)) = some (0.125 : ℚ)
    ∧ safe_percent_to_ratio (some (0.125 : ℚ)) = some (0.125 : ℚ)
    ∧ safe_percent_to_ratio (some (1.2 : ℚ)) = some (1.2 : ℚ) := by
  have h12 : (1.2 : ℚ) = 6 / 5 := by norm_num
  refine ⟨?_, ?_, ?_, ?_, ?_⟩
  · intro v h1 h2
    rw [h12] at h1 h2
    simp only [safe_percent_to_ratio, if_pos (And.intro h1 h2)]
  · intro v h
    rw [h12] at h
    simp only [safe_percent_to_ratio, if_neg h]
  · have h : ¬(-(6/5 : ℚ) ≤ 12.5 ∧ (12.5 : ℚ) ≤ 6/5) := by norm_num
    simp only [safe_percent_to_ratio, if_neg h]
    norm_num
  · have h : -(6/5 : ℚ) ≤ 0.125 ∧ (0.125 : ℚ) ≤ 6/5 := by norm_num
    simp only [safe_percent_to_ratio, if_pos h]
  · have h : -(6/5 : ℚ) ≤ 1.2 ∧ (1.2 : ℚ) ≤ 6/5 := by norm_num
    simp only [safe_percent_to_ratio, if_pos h]

/-- Witness for C7 at the concrete out-of-range input 250 (percent-like,
divided by 100). -/
theorem safe_percent_to_ratio_spec_witness :
    safe_percent_to_ratio (some (250 : ℚ)) = some ((250 : ℚ) / 100) :=
  safe_percent_to_ratio_spec.2.1 250 (by norm_num)

/-! ## Claim C6 -/

/-- Characters appearing in the numeric-looking strings of claim C6 are
not whitespace. -/
theorem isPyWs_false_of_numish (c : Char)
    (h : c.isDigit = true ∨ c = ',' ∨ c = '.' ∨ c = '(' ∨ c = ')' ∨ c = '%' ∨ c = '-') :
    isPyWs c = false := by
  rcases h with h | h | h | h | h | h | h
  · have h1 : c ≠ ' ' := fun he => by rw [he] at h; simp at h
    have h2 : c ≠ '\t' := fun he => by rw [he] at h; simp at h
    have h3 : c ≠ '\n' := fun he => by rw [he] at h; simp at h
    have h4 : c ≠ '\r' := fun he => by rw [he] at h; simp at h
    have h5 : c ≠ '\x0b' := fun he => by rw [he] at h; simp at h
    have h6 : c ≠ '\x0c' := fun he => by rw [he] at h; simp at h
    simp [isPyWs, h1, h2, h3, h4, h5, h6]
  all_goals subst h; decide

/-- Characters appearing in the numeric-looking strings of claim C6 are
not the non-breaking space. -/
theorem ne_nbsp_of_numish (c : Char)
    (h : c.isDigit = true ∨ c = ',' ∨ c = '.' ∨ c = '(' ∨ c = ')' ∨ c = '%' ∨ c = '-') :
    c ≠ ' ' := by
  rcases h with h | h | h | h | h | h | h
  · exact fun he => by rw [he] at h; simp at h
  all_goals subst h; decide

/-- `pyNormalize` leaves a string of digits, separators and punctuation
unchanged. -/
theorem pyNormalize_noop (l : List Char)
    (h : ∀ c ∈ l, c.isDigit = true ∨ c = ',' ∨ c = '.' ∨ c = '(' ∨ c = ')' ∨ c = '%' ∨ c = '-') :
    pyNormalize ⟨l⟩ = ⟨l⟩ := by
  unfold pyNormalize
  rw [map_noop _ l (fun c hc => if_neg (ne_nbsp_of_numish c (h c hc))),
    pyStrip_noop l (fun c hc => isPyWs_false_of_numish c (h c hc))]

/-- `parseFloat?` on a sign-free digits-and-dot list is `parseMantExp`. -/
theorem parseFloat_digits (l : List Char)
    (h : ∀ c ∈ l, c.isDigit = true ∨ c = '.') :
    parseFloat? ⟨l⟩ = parseMantExp l := by
  have hws : ∀ c ∈ l, isPyWs c = false := by
    intro c hc
    refine isPyWs_false_of_numish c ?_
    rcases h c hc with h1 | h1
    · exact Or.inl h1
    · exact Or.inr (Or.inr (Or.inl h1))
  unfold parseFloat?
  rw [show (⟨l⟩ : String).data = l from rfl, pyStrip_noop l hws]
  refine parseSigned_not_sign l ?_ ?_
  · intro he
    cases l with
    | nil => simp at he
    | cons a as =>
        simp only [List.head?_cons, Option.some.injEq] at he
        subst he
        rcases h '-' (List.mem_cons_self _ _) with h1 | h1
        · exact absurd h1 (by decide)
        · exact absurd h1 (by decide)
  · intro he
    cases l with
    | nil => simp at he
    | cons a as =>
        simp only [List.head?_cons, Option.some.injEq] at he
        subst he
        rcases h '+' (List.mem_cons_self _ _) with h1 | h1
        · exact absurd h1 (by decide)
        · exact absurd h1 (by decide)

unseal Rat.mul Rat.inv Rat.add Rat.sub Rat.ofScientific in
/-- Claim C6: `coerce_number` handles thousands separators and
accounting-style parenthesized negatives (returning the negated unsigned
value, so "(1,234.50)" gives -1234.50), strips a trailing percent sign
without dividing by 100, and yields NaN (never an exception: the function
is total by construction) on parse failure. -/
theorem coerce_number_spec :
    (∀ body : String, ∀ q : ℚ,
        (∀ ch ∈ body.data, ch.isDigit = true ∨ ch = ',' ∨ ch = '.') →
        parseMantExp (body.data.filter (fun c => c ≠ ',')) = some q →
        coerce_number (.str ("(" ++ body ++ ")")) = some (-q))
    ∧ (∀ t : String, ∀ q : ℚ,
        (∀ ch ∈ t.data, ch.isDigit = true ∨ ch = '.') →
        parseMantExp t.data = some q →
        coerce_number (.str (t ++ "%")) = some q)
    ∧ coerce_number (.str "(1,234.50)") = some (-(1234.5 : ℚ))
    ∧ coerce_number (.str "abc") = none := by
  refine ⟨?_, ?_, ?_, ?_⟩
  · intro body q hch hparse
    have hdata : ("(" ++ body ++ ")").data = '(' :: (body.data ++ [')']) := by
      rw [String.data_append, String.data_append]; rfl
    set B := body.data.filter (fun c => c ≠ ',') with hB
    have hBmem : ∀ c ∈ B, c.isDigit = true ∨ c = '.' := by
      intro c hc
      have hc2 := List.mem_of_mem_filter hc
      have hcne : c ≠ ',' := by
        have := List.of_mem_filter hc
        simpa using this
      rcases hch c hc2 with h1 | h1 | h1
      · exact Or.inl h1
      · exact absurd h1 hcne
      · exact Or.inr h1
    have hnumish : ∀ c ∈ ("(" ++ body ++ ")").data,
        c.isDigit = true ∨ c = ',' ∨ c = '.' ∨ c = '(' ∨ c = ')' ∨ c = '%' ∨ c = '-' := by
      intro c hc
      rw [hdata] at hc
      rcases List.mem_cons.mp hc with hc | hc
      · exact Or.inr (Or.inr (Or.inr (Or.inl hc)))
      · rcases List.mem_append.mp hc with hc | hc
        · rcases hch c hc with h1 | h1 | h1
          · exact Or.inl h1
          · exact Or.inr (Or.inl h1)
          · exact Or.inr (Or.inr (Or.inl h1))
        · rw [List.mem_singleton.mp hc]
          exact Or.inr (Or.inr (Or.inr (Or.inr (Or.inl rfl))))
    have hnorm : pyNormalize ("(" ++ body ++ ")") = ("(" ++ body ++ ")") := by
      have := pyNormalize_noop ("(" ++ body ++ ")").data hnumish
      simpa using this
    have hne : pyNormalize ("(" ++ body ++ ")") ≠ "" := by
      rw [hnorm]
      intro he
      have h0 : ("(" ++ body ++ ")").data = [] := by rw [he]
      rw [hdata] at h0
      cases h0
    have hstep : coerce_number (.str ("(" ++ body ++ ")"))
        = if pyNormalize ("(" ++ body ++ ")") = "" then none
          else coerceText (pyNormalize ("(" ++ body ++ ")")).data := rfl
    rw [hstep, if_neg hne, hnorm, hdata]
    unfold coerceText
    have hfil1 : ('(' :: (body.data ++ [')'])).filter (fun c => c ≠ ',')
        = '(' :: (B ++ [')']) := by
      rw [hB]
      simp [List.filter_append]
    rw [hfil1]
    unfold coerceAfterComma
    have hlast : ('(' :: (B ++ [')'])).getLast? = some ')' := by
      rw [show ('(' :: (B ++ [')'])) = ('(' :: B) ++ [')'] from by simp,
        List.getLast?_concat]
    rw [hlast, if_neg (by decide : ¬ ((some ')' : Option Char) = some '%'))]
    have hfil2 : ('(' :: (B ++ [')'])).filter isNumChar = '(' :: (B ++ [')']) := by
      refine List.filter_eq_self.mpr ?_
      intro a ha
      rcases List.mem_cons.mp ha with ha | ha
      · subst ha; decide
      · rcases List.mem_append.mp ha with ha | ha
        · rcases hBmem a ha with h1 | h1
          · simp [isNumChar, h1]
          · subst h1; decide
        · have h2 := List.mem_singleton.mp ha
          subst h2; decide
    rw [hfil2]
    unfold coerceStripped
    rw [if_neg (by simp : ¬ ('(' :: (B ++ [')']) : List Char).isEmpty = true)]
    rw [if_pos (by
      refine (Bool.and_eq_true _ _).mpr ⟨?_, ?_⟩
      · simp
      · rw [decide_eq_true_eq, hlast])]
    have hdrop : (('(' :: (B ++ [')'])).drop 1).dropLast = B := by
      simp [List.dropLast_concat]
    rw [hdrop]
    unfold parseFloat?
    have hstrip : pyStrip ('-' :: B) = '-' :: B := by
      refine pyStrip_noop _ ?_
      intro c hc
      rcases List.mem_cons.mp hc with hc | hc
      · subst hc; decide
      · refine isPyWs_false_of_numish c ?_
        rcases hBmem c hc with h1 | h1
        · exact Or.inl h1
        · exact Or.inr (Or.inr (Or.inl h1))
    rw [show (⟨'-' :: B⟩ : String).data = '-' :: B from rfl, hstrip]
    rw [show parseSigned ('-' :: B) = (parseMantExp B).map (fun q => -q) from rfl]
    rw [hparse]
    rfl
  · intro t q hch hparse
    have hdata : (t ++ "%").data = t.data ++ ['%'] := by
      rw [String.data_append]
    have hnumish : ∀ c ∈ (t ++ "%").data,
        c.isDigit = true ∨ c = ',' ∨ c = '.' ∨ c = '(' ∨ c = ')' ∨ c = '%' ∨ c = '-' := by
      intro c hc
      rw [hdata] at hc
      rcases List.mem_append.mp hc with hc | hc
      · rcases hch c hc with h1 | h1
        · exact Or.inl h1
        · exact Or.inr (Or.inr (Or.inl h1))
      · rw [List.mem_singleton.mp hc]
        exact Or.inr (Or.inr (Or.inr (Or.inr (Or.inr (Or.inl rfl)))))
    have hnorm : pyNormalize (t ++ "%") = (t ++ "%") := by
      have := pyNormalize_noop (t ++ "%").data hnumish
      simpa using this
    have hne : pyNormalize (t ++ "%") ≠ "" := by
      rw [hnorm]
      intro he
      have h0 : (t ++ "%").data = [] := by rw [he]
      rw [hdata] at h0
      simp at h0
    have hstep : coerce_number (.str (t ++ "%"))
        = if pyNormalize (t ++ "%") = "" then none
          else coerceText (pyNormalize (t ++ "%")).data := rfl
    rw [hstep, if_neg hne, hnorm, hdata]
    unfold coerceText
    have hfil1 : (t.data ++ ['%']).filter (fun c => c ≠ ',') = t.data ++ ['%'] := by
      refine List.filter_eq_self.mpr ?_
      intro a ha
      rcases List.mem_append.mp ha with ha | ha
      · rcases hch a ha with h1 | h1
        · have : a ≠ ',' := fun he => by rw [he] at h1; simp at h1
          simpa using this
        · subst h1; decide
      · have h2 := List.mem_singleton.mp ha
        subst h2; decide
    rw [hfil1]
    unfold coerceAfterComma
    rw [List.getLast?_concat, if_pos rfl, List.dropLast_concat]
    rw [show (⟨t.data⟩ : String) = t from rfl]
    rw [parseFloat_digits t.data hch, hparse]
  · decide
  · decide

unseal Rat.mul Rat.inv Rat.add Rat.sub Rat.ofScientific in
/-- Witness for C6: the general parenthesized-negative conjunct applied to
the spec example "(1,234.50)". -/
theorem coerce_number_spec_witness :
    coerce_number (.str "(1,234.50)") = some (-(2469 / 2 : ℚ)) :=
  coerce_number_spec.1 "1,234.50" (2469 / 2) (by decide) (by decide)

/-! ## First-match lemmas over sorted index lists -/

theorem find_first_le {p : Nat → Bool} {k : Nat} :
    ∀ {l : List Nat}, l.Pairwise (· < ·) → l.find? p = some k →
    ∀ x ∈ l, p x = true → k ≤ x := by
  intro l
  induction l with
  | nil => intro _ h; cases h
  | cons a as ih =>
      intro hs h x hx hpx
      rw [List.find?_cons] at h
      rcases List.mem_cons.mp hx with hx | hx
      · subst hx
        simp only [hpx, Option.some.injEq] at h
        omega
      · cases hpa : p a with
        | true =>
            simp only [hpa, Option.some.injEq] at h
            subst h
            exact Nat.le_of_lt ((List.pairwise_cons.mp hs).1 x hx)
        | false =>
            simp only [hpa] at h
            exact ih (List.pairwise_cons.mp hs).2 h x hx hpx

theorem find_first_not {p : Nat → Bool} {k : Nat} :
    ∀ {l : List Nat}, l.Pairwise (· < ·) → l.find? p = some k →
    ∀ x ∈ l, x < k → p x = false := by
  intro l hs h x hx hxk
  by_cases hpx : p x
  · exact absurd (find_first_le hs h x hx hpx) (by omega)
  · simpa using hpx

theorem find_congr_prefix {p1 p2 : Nat → Bool} {k : Nat} :
    ∀ {l : List Nat}, l.Pairwise (· < ·) → l.find? p1 = some k →
    (∀ x ∈ l, x ≤ k → p1 x = p2 x) → l.find? p2 = some k := by
  intro l
  induction l with
  | nil => intro _ h; cases h
  | cons a as ih =>
      intro hs h hagree
      rw [List.find?_cons] at h ⊢
      cases hpa : p1 a with
      | true =>
          simp only [hpa, Option.some.injEq] at h
          subst h
          have hp2 : p2 a = true := by
            rw [← hagree a (List.mem_cons_self a as) (Nat.le_refl _)]
            exact hpa
          simp only [hp2]
      | false =>
          simp only [hpa] at h
          have hak : a < k := by
            have hk := List.mem_of_find?_eq_some h
            exact (List.pairwise_cons.mp hs).1 k hk
          have hp2a : p2 a = false := by
            rw [← hagree a (List.mem_cons_self a as) (Nat.le_of_lt hak)]
            exact hpa
          simp only [hp2a]
          exact ih (List.pairwise_cons.mp hs).2 h
            (fun x hx hxk => hagree x (List.mem_cons_of_mem a hx) hxk)

theorem find_ext {α : Type} {p1 p2 : α → Bool} :
    ∀ l : List α, (∀ x ∈ l, p1 x = p2 x) → l.find? p1 = l.find? p2 := by
  intro l
  induction l with
  | nil => intro _; rfl
  | cons a as ih =>
      intro h
      rw [List.find?_cons, List.find?_cons, h a (List.mem_cons_self a as)]
      cases hpa : p2 a with
      | true => simp only [hpa]
      | false =>
          simp only [hpa]
          exact ih (fun x hx => h x (List.mem_cons_of_mem a hx))

theorem find_filter {α : Type} (q : α → Bool) :
    ∀ (l : List α) (p : α → Bool), (l.filter p).find? q = l.find? (fun a => p a && q a) := by
  intro l
  induction l with
  | nil => intro _; rfl
  | cons a as ih =>
      intro p
      rw [List.filter_cons]
      cases hp : p a with
      | true =>
          rw [if_pos rfl]
          rw [List.find?_cons, List.find?_cons]
          cases hq : q a with
          | true => simp only [hq, hp, Bool.true_and]
          | false =>
              simp only [hq, hp, Bool.true_and]
              exact ih p
      | false =>
          rw [if_neg (by simp : ¬ ((false : Bool) = true))]
          rw [List.find?_cons]
          simp only [hp, Bool.false_and]
          exact ih p

theorem any_ext {α : Type} {p1 p2 : α → Bool} :
    ∀ l : List α, (∀ x ∈ l, p1 x = p2 x) → l.any p1 = l.any p2 := by
  intro l
  induction l with
  | nil => intro _; rfl
  | cons a as ih =>
      intro h
      rw [List.any_cons, List.any_cons, h a (List.mem_cons_self a as),
        ih (fun x hx => h x (List.mem_cons_of_mem a hx))]

theorem filterMap_ext {α β : Type} {f g : α → Option β} :
    ∀ l : List α, (∀ x ∈ l, f x = g x) → l.filterMap f = l.filterMap g := by
  intro l
  induction l with
  | nil => intro _; rfl
  | cons a as ih =>
      intro h
      rw [List.filterMap_cons, List.filterMap_cons, h a (List.mem_cons_self a as),
        ih (fun x hx => h x (List.mem_cons_of_mem a hx))]

/-! ## Claim C5 -/

/-- Rows of the sheet agreeing up to row `N` inclusive. -/
def agreeUpTo (sh sh2 : Sheet) (N : Nat) : Prop :=
  ∀ r, r ≤ N → ∀ c, sh.cell r c = sh2.cell r c

/-- Claim C5: in the Arqaam extractor, a holdings-block row `N` whose first
column reads "total" (case-insensitively, after trimming) cuts the
holdings off strictly before row `N`: every kept row index is below `N`
(row `N` and everything after is excluded); the extracted holdings are
unchanged by arbitrary edits strictly below row `N`; and every extracted
holding has a nonempty (non-junk) cleaned ticker. -/
theorem arqaam_total_cutoff (sh sh2 : Sheet) (gname : String) (h N : Nat)
    (hrows : sh.nRows = sh2.nRows) (hcols : sh.nCols = sh2.nCols)
    (hagree : agreeUpTo sh sh2 N)
    (hheader : arq_header_row? sh = some h)
    (hhN : h < N)
    (hNmem : N ∈ arq_trimmed sh h)
    (htot : rawLower (sh.cell N 0) = "total") :
    (∀ r ∈ arq_kept sh h, r < N)
    ∧ arqaamHoldings sh gname = arqaamHoldings sh2 gname
    ∧ (∀ rec ∈ arqaamHoldings sh gname, rec.ticker ≠ "") := by
  have htrim_sorted : (arq_trimmed sh h).Pairwise (· < ·) :=
    (List.pairwise_lt_range' (h + 1) (sh.nRows - (h + 1))).filter _
  have hNfind : ((arq_trimmed sh h).find?
      (fun r => rawLower (sh.cell r 0) = "total")).isSome := by
    refine List.find?_isSome.mpr ⟨N, hNmem, ?_⟩
    simpa using htot
  obtain ⟨T, hT⟩ := Option.isSome_iff_exists.mp hNfind
  have hTN : T ≤ N := find_first_le htrim_sorted hT N hNmem (by simpa using htot)
  have hTfirst : arq_first_total? sh h = some T := hT
  have part1 : ∀ r ∈ arq_kept sh h, r < N := by
    intro r hr
    unfold arq_kept at hr
    rw [hTfirst] at hr
    have := List.of_mem_filter hr
    have hrT : r < T := by simpa using this
    omega
  refine ⟨part1, ?_, ?_⟩
  · -- insensitivity to rows strictly below N
    have hrowsL : ∀ r, r ≤ N → rowStrsLower sh r = rowStrsLower sh2 r := by
      intro r hr
      unfold rowStrsLower
      rw [hcols]
      refine filterMap_ext _ ?_
      intro c _
      rw [hagree r hr c]
    have hheader2 : arq_header_row? sh2 = some h := by
      unfold arq_header_row? at hheader ⊢
      rw [← hrows]
      refine find_congr_prefix (List.pairwise_lt_range sh.nRows) hheader ?_
      intro x _ hxh
      rw [hrowsL x (by omega)]
    have hweq : arq_weight_pos? sh h = arq_weight_pos? sh2 h := by
      unfold arq_weight_pos?
      rw [hcols]
      refine find_ext _ ?_
      intro j _
      unfold headerName
      rw [hagree h (by omega) j]
    have hnonempty_congr : ∀ r, r ≤ N → rowNonEmpty sh r = rowNonEmpty sh2 r := by
      intro r hr
      unfold rowNonEmpty
      rw [hcols]
      refine any_ext _ ?_
      intro c _
      rw [hagree r hr c]
    -- the Total search in the second sheet finds the same first row T
    have hT2 : arq_first_total? sh2 h = some T := by
      unfold arq_first_total? arq_trimmed dataRowIdxs at hTfirst ⊢
      rw [find_filter] at hTfirst ⊢
      rw [← hrows]
      refine find_congr_prefix (List.pairwise_lt_range' _ _) hTfirst ?_
      intro x _ hxT
      have hxN : x ≤ N := by omega
      rw [hnonempty_congr x hxN, hagree x hxN 0]
    have hkept : arq_kept sh h = arq_kept sh2 h := by
      unfold arq_kept
      simp only [hTfirst, hT2]
      unfold arq_trimmed dataRowIdxs
      rw [List.filter_filter, List.filter_filter, ← hrows]
      refine List.filter_congr ?_
      intro r _
      by_cases hrT : r < T
      · rw [hnonempty_congr r (by omega)]
      · have hd : (decide (r < T)) = false := by simpa using hrT
        rw [hd]
        simp
    unfold arqaamHoldings
    simp only [hheader, hheader2]
    rw [← hweq]
    cases arq_weight_pos? sh h with
    | none => rfl
    | some w =>
        rw [← hkept]
        refine filterMap_ext _ ?_
        intro r hr
        have hrN : r < N := part1 r hr
        unfold arq_mk_holding
        rw [hagree r (by omega) 0, hagree r (by omega) w]
  · intro rec hrec
    unfold arqaamHoldings at hrec
    simp only [hheader] at hrec
    cases hw : arq_weight_pos? sh h with
    | none =>
        simp only [hw] at hrec
        cases hrec
    | some w =>
        simp only [hw] at hrec
        obtain ⟨r, _, hfr⟩ := List.mem_filterMap.mp hrec
        unfold arq_mk_holding at hfr
        by_cases ht : clean_ticker (sh.cell r 0) = ""
        · rw [if_pos ht] at hfr; cases hfr
        · rw [if_neg ht] at hfr
          cases hfr
          simpa using ht

/-- Witness for C5: the concrete sheet with Total at row 4 and junk below;
the junk rows are excluded and edits below row 4 leave holdings unchanged. -/
theorem arqaam_total_cutoff_witness :
    (∀ r ∈ arq_kept arqTotalSheet 2, r < 4)
    ∧ arqaamHoldings arqTotalSheet "Arqaam" = arqaamHoldings arqTotalSheetB "Arqaam"
    ∧ (∀ rec ∈ arqaamHoldings arqTotalSheet "Arqaam", rec.ticker ≠ "") := by
  refine arqaam_total_cutoff arqTotalSheet arqTotalSheetB "Arqaam" 2 4 rfl rfl ?_
    (by decide) (by decide) (by decide) (by decide)
  intro r hr c
  show (if r ≤ 4 then arqTotalBase r c else _) = (if r ≤ 4 then arqTotalBase r c else _)
  rw [if_pos hr, if_pos hr]

/-! ## Claim C10 -/

/-- Claim C10: a first sheet with fewer than 5 rows or fewer than 2 columns
makes the Arqaam extractor raise an out-of-bounds IndexError at the fixed
cash/NAV cell reads (B2 and B5), instead of degrading those values to NaN. -/
theorem arqaam_small_sheet_error (path gname : String) (sh : Sheet) (fx : Option ℚ)
    (h : sh.nRows < 5 ∨ sh.nCols < 2) :
    extract_new_portfolios path gname sh fx = .error "IndexError" := by
  unfold extract_new_portfolios iatE
  by_cases h1 : 1 < sh.nRows ∧ 1 < sh.nCols
  · have h2 : ¬(4 < sh.nRows ∧ 1 < sh.nCols) := by omega
    rw [if_pos h1, if_neg h2]
    rfl
  · rw [if_neg h1]
    rfl

/-- Witness for C10 on a concrete 3 by 3 sheet. -/
theorem arqaam_small_sheet_error_witness :
    extract_new_portfolios "p" "Arqaam" noAnchorSheet none = .error "IndexError" :=
  arqaam_small_sheet_error "p" "Arqaam" noAnchorSheet none (Or.inl (by decide))

/-! ## Claim C8 -/

/-- Claim C8: the Arqaam extractor reads cash from the fixed absolute cell
(row 2, col 2, 1-indexed) and NAV from (row 5, col 2); when an FX
multiplier is supplied both values are multiplied by it. -/
theorem arqaam_fixed_cells_fx (path gname : String) (sh : Sheet) (f q1 q2 : ℚ)
    (hr : 4 < sh.nRows) (hc : 1 < sh.nCols)
    (hcash : coerce_number (sh.cell 1 1) = some q1)
    (hnav : coerce_number (sh.cell 4 1) = some q2) :
    extract_new_portfolios path gname sh (some f)
      = .ok ({ group := gname, portfolio := gname, nav := some (q2 * f),
               cash := some (q1 * f), pp := none, source := path },
             arqaamHoldings sh gname,
             { group := gname, portfolio := gname, total_nav := some (q2 * f),
               total_cash := some (q1 * f), total_pp := none }) := by
  unfold extract_new_portfolios iatE
  rw [if_pos (And.intro (by omega) hc), if_pos (And.intro hr hc)]
  have hbind : ∀ (α β : Type) (a : α) (g : α → Except String β),
      (Except.ok a >>= g) = g a := fun _ _ _ _ => rfl
  rw [hbind, hbind]
  simp only [hcash, hnav, Option.map_some']

/-- Witness for C8: the synthetic sheet with cash 1000 in B2, NAV 5000 in
B5 and FX 10 yields cash 10000 and NAV 50000 in the summary and totals. -/
theorem arqaam_fixed_cells_fx_witness :
    extract_new_portfolios "p" "Arqaam" arqFxSheet (some 10)
      = .ok ({ group := "Arqaam", portfolio := "Arqaam", nav := some 50000,
               cash := some 10000, pp := none, source := "p" }, [],
             { group := "Arqaam", portfolio := "Arqaam", total_nav := some 50000,
               total_cash := some 10000, total_pp := none }) := by
  rw [arqaam_fixed_cells_fx "p" "Arqaam" arqFxSheet 10 1000 5000 (by decide) (by decide)
    (by decide) (by decide)]
  norm_num
  decide

/-! ## Claim C9 -/

/-- Every record produced by the Mode-B holdings loop comes from some row
at or below the start row, carries the computed weight
`modeB_weight nav (stock value of its row)` and has a nonempty cleaned
ticker. -/
theorem modeB_rows_mem (sh : Sheet) (scol vcol : Nat) (nav : Option ℚ) :
    ∀ (fuel rr : Nat), ∀ rec ∈ modeB_rows sh scol vcol nav fuel rr,
      ∃ ar, rr ≤ ar
        ∧ rec = { group := "Emad", portfolio := "Emad",
                  ticker := clean_ticker (sh.cell ar scol),
                  weight_ratio := modeB_weight nav (modeB_sv sh vcol ar) }
        ∧ clean_ticker (sh.cell ar scol) ≠ "" := by
  intro fuel
  induction fuel with
  | zero =>
      intro rr rec hrec
      simp [modeB_rows] at hrec
  | succ fuel ih =>
      intro rr rec hrec
      unfold modeB_rows at hrec
      by_cases ht : clean_ticker (sh.cell rr scol) = ""
      · rw [if_pos ht] at hrec
        cases hrec
      · rw [if_neg ht] at hrec
        rcases List.mem_cons.mp hrec with hrec | hrec
        · exact ⟨rr, Nat.le_refl _, hrec, ht⟩
        · obtain ⟨ar, har, heq, hne⟩ := ih (rr + 1) rec hrec
          exact ⟨ar, by omega, heq, hne⟩

/-- Claim C9: in the Mode-B extractor each extracted holding has weight
computed as stock_value / nav, where the stock value is read two columns
right of the ticker column (ticker at name column + 2, value at name
column + 4); the weight is NaN whenever NAV is NaN, NAV is zero, or the
stock value is unavailable, and the division itself never fails. -/
theorem modeB_weight_formula (path : String) (wb : List (String × Sheet)) (sh : Sheet)
    (r c : Nat)
    (hsheet : lookupSheet wb "Retail>5M" = some sh)
    (hanchor : find_cell sh emadMatch = some (r, c)) :
    extract_customer_position_mode_b path wb
      = .ok ({ group := "Emad", portfolio := "Emad", nav := modeB_nav sh r c,
               cash := if c + 1 < sh.nCols then coerce_number (sh.cell r (c + 1)) else none,
               pp := none, source := path },
             (if c + 2 < sh.nCols then
                modeB_rows sh (c + 2) (c + 4) (modeB_nav sh r c) (sh.nRows - (r + 1)) (r + 1)
              else []),
             { group := "Emad", portfolio := "Emad", total_nav := modeB_nav sh r c,
               total_cash := if c + 1 < sh.nCols then coerce_number (sh.cell r (c + 1)) else none,
               total_pp := none })
    ∧ (∀ rec, rec ∈ (if c + 2 < sh.nCols then
          modeB_rows sh (c + 2) (c + 4) (modeB_nav sh r c) (sh.nRows - (r + 1)) (r + 1)
        else []) →
        ∃ ar, r + 1 ≤ ar
          ∧ Holding.weight_ratio rec
              = modeB_weight (modeB_nav sh r c) (modeB_sv sh (c + 4) ar)
          ∧ rec.ticker = clean_ticker (sh.cell ar (c + 2))
          ∧ rec.ticker ≠ "")
    ∧ (∀ sv, modeB_weight none sv = none)
    ∧ (∀ nv, modeB_weight nv none = none)
    ∧ (∀ sv, modeB_weight (some 0) sv = none)
    ∧ (∀ n v, n ≠ 0 → modeB_weight (some n) (some v) = some (v / n)) := by
  refine ⟨?_, ?_, ?_, ?_, ?_, ?_⟩
  · unfold extract_customer_position_mode_b
    simp only [hsheet, hanchor]
  · intro rec hrec
    by_cases hcols : c + 2 < sh.nCols
    · rw [if_pos hcols] at hrec
      obtain ⟨ar, har, heq, hne⟩ := modeB_rows_mem sh (c + 2) (c + 4) (modeB_nav sh r c)
        (sh.nRows - (r + 1)) (r + 1) rec hrec
      refine ⟨ar, har, ?_, ?_, ?_⟩
      · rw [heq]
      · rw [heq]
      · rw [heq]
        simpa using hne
    · rw [if_neg hcols] at hrec
      cases hrec
  · intro sv
    cases sv <;> rfl
  · intro nv
    cases nv <;> rfl
  · intro sv
    cases sv with
    | none => rfl
    | some v =>
        show (if (0 : ℚ) ≠ 0 then some (v / 0) else none) = none
        rw [if_neg (by simp)]
  · intro n v hn
    show (if n ≠ 0 then some (v / n) else none) = some (v / n)
    rw [if_pos hn]

unseal Rat.mul Rat.inv Rat.add Rat.sub Rat.ofScientific in
/-- Witness for C9 on the concrete Mode-B workbook: NAV 100000, one stock
valued 5000, weight ratio 5000 / 100000 = 1/20. -/
theorem modeB_weight_formula_witness :
    extract_customer_position_mode_b "p" emadWb
      = .ok ({ group := "Emad", portfolio := "Emad", nav := some 100000, cash := some 250,
               pp := none, source := "p" },
             [{ group := "Emad", portfolio := "Emad", ticker := "ABC",
                weight_ratio := some (1 / 20) }],
             { group := "Emad", portfolio := "Emad", total_nav := some 100000,
               total_cash := some 250, total_pp := none }) := by
  rw [(modeB_weight_formula "p" emadWb emadSheet 0 0 rfl (by decide)).1]
  decide

/-! ## Claim C4 -/

theorem except_bind_ok {α β : Type} (a : α) (g : α → Except String β) :
    (Except.ok a >>= g) = g a := rfl

/-- The NAV scan over an in-bounds row list is the first-match search for a
"net" cell in column index 9. -/
theorem navScanGo_eq (sh : Sheet) (h9 : 9 < sh.nCols) :
    ∀ l : List Nat, (∀ rr ∈ l, rr < sh.nRows) →
      navScanGo sh l = .ok (match l.find? (fun rr => netRowB sh rr) with
        | some rr => rightOrNear sh rr 9
        | none => none) := by
  intro l
  induction l with
  | nil => intro _; rfl
  | cons a as ih =>
      intro hmem
      unfold navScanGo
      have hio : iatE sh a 9 = .ok (sh.cell a 9) := by
        unfold iatE
        rw [if_pos (And.intro (hmem a (List.mem_cons_self a as)) h9)]
      rw [hio, except_bind_ok, List.find?_cons]
      cases hb : netRowB sh a with
      | true => simp only [hb, if_pos]
      | false =>
          simp only [hb, Bool.false_eq_true, if_false]
          exact ih (fun rr hrr => hmem rr (List.mem_cons_of_mem a hrr))

/-- Claim C4: the consolidated-table NAV is found by scanning strictly
below the anchor row, only in the fixed column of index 9, for the first
cell containing "net" (case-insensitively); NAV is then the nearest
numeric cell to the right in that row with the neighborhood fallback.
Rows at or above the anchor are never consulted by the scan.  On the
concrete sheet with "Consolidated" at (5,1), "Net" at (12,9) and 50000 at
(12,11) the extractor returns NAV 50000; with "Net" moved above the
anchor row the extractor returns NAV NaN. -/
theorem consolidated_nav_scan_spec :
    (∀ (sh : Sheet) (r0 : Nat), 9 < sh.nCols →
      navScan sh r0 = .ok (match nav_net_row? sh r0 with
        | some rr => rightOrNear sh rr 9
        | none => none))
    ∧ (∀ (sh : Sheet) (r0 rr : Nat), nav_net_row? sh r0 = some rr →
        r0 < rr ∧ rr < sh.nRows ∧ netRowB sh rr = true
          ∧ ∀ rr2, r0 < rr2 → rr2 < rr → netRowB sh rr2 = false)
    ∧ (∀ (sh : Sheet) (r0 : Nat), nav_net_row? sh r0 = none →
        ∀ rr, r0 < rr → rr < sh.nRows → netRowB sh rr = false)
    ∧ (∀ (sh sh2 : Sheet) (r0 : Nat), sh.nRows = sh2.nRows →
        (∀ rr, r0 < rr → sh.cell rr 9 = sh2.cell rr 9) →
        nav_net_row? sh r0 = nav_net_row? sh2 r0)
    ∧ extract_consolidated "f" "s" consNavSheet "CFH" "CFH"
        = .ok ({ group := "CFH", portfolio := "CFH", nav := some 50000, cash := none,
                 pp := none, source := "f" }, [])
    ∧ extract_consolidated "f" "s" consNavAboveSheet "CFH" "CFH"
        = .ok ({ group := "CFH", portfolio := "CFH", nav := none, cash := none,
                 pp := none, source := "f" }, []) := by
  refine ⟨?_, ?_, ?_, ?_, by decide, by decide⟩
  · intro sh r0 h9
    unfold navScan nav_net_row?
    refine navScanGo_eq sh h9 _ ?_
    intro rr hrr
    have := List.mem_range'_1.mp hrr
    omega
  · intro sh r0 rr hfind
    have hmem := List.mem_of_find?_eq_some hfind
    have hbounds := List.mem_range'_1.mp hmem
    have hp : netRowB sh rr = true := List.find?_some hfind
    refine ⟨by omega, by omega, hp, ?_⟩
    intro rr2 h1 h2
    refine find_first_not (List.pairwise_lt_range' _ _) hfind rr2 ?_ h2
    refine List.mem_range'_1.mpr ?_
    omega
  · intro sh r0 hnone rr h1 h2
    have := List.find?_eq_none.mp hnone rr (List.mem_range'_1.mpr (by omega))
    simpa using this
  · intro sh sh2 r0 hrows hagree
    unfold nav_net_row?
    rw [← hrows]
    refine find_ext _ ?_
    intro rr hrr
    have hb := List.mem_range'_1.mp hrr
    unfold netRowB
    rw [hagree rr (by omega)]

/-- Witness for C4: the characterization applied to the bare consolidated
sheet, whose scan finds no "net" row. -/
theorem consolidated_nav_scan_spec_witness :
    navScan consBareSheet 0 = .ok none := by
  rw [consolidated_nav_scan_spec.1 consBareSheet 0 (by decide),
    show nav_net_row? consBareSheet 0 = none from by decide]

/-! ## Claim C1 -/

/-- Counterexample to claim C1 as stated: a sheet without the "Group
Summary" anchor does NOT make the positions-by-group extractor fail; the
sheet is silently skipped and the extractor returns empty tables (an empty
result, not an unrecoverable error). -/
theorem positions_by_group_no_anchor_counterexample :
    find_cell noAnchorSheet groupSummaryMatch = none
    ∧ extract_positions_by_group "f" [("Sheet1", noAnchorSheet)] = .ok ([], [], []) := by
  constructor
  · decide
  · decide

/-- Claim C1 (amended): the consolidated-table and Mode-B extractors fail
fast with an unrecoverable error naming the missing anchor and the
file/sheet when their structural anchor is absent; the positions-by-group
extractor instead silently skips sheets without a "Group Summary" anchor
(returning empty tables when every sheet lacks it). Missing secondary
values degrade to NaN rather than failing in the consolidated extractor —
on a sheet wider than 9 columns whose header, purchasing-power and NAV
searches all fail, it returns a summary row with NaN nav/cash/pp and no
holdings — and in the Mode-B extractor, whose NAV is NaN when its "Net"
search fails; no such degradation is asserted for the positions-by-group
extractor, whose unguarded cell reads can go out of bounds instead. -/
theorem extractor_anchor_failfast :
    (∀ (path sheetName g pf : String) (sh : Sheet),
      find_cell sh consolidatedMatch = none →
      extract_consolidated path sheetName sh g pf
        = .error ("Consolidated anchor not found: " ++ path ++ " / " ++ sheetName))
    ∧ (∀ (path : String) (wb : List (String × Sheet)) (sh : Sheet),
        lookupSheet wb "Retail>5M" = some sh →
        find_cell sh emadMatch = none →
        extract_customer_position_mode_b path wb
          = .error "Client not found: Emad Farah in sheet Retail>5M")
    ∧ (∀ (path : String) (sheets : List (String × Sheet)),
        (∀ p ∈ sheets, lowerStr (pyNormalize p.1) = "ungrouped"
          ∨ find_cell p.2 groupSummaryMatch = none) →
        extract_positions_by_group path sheets = .ok ([], [], []))
    ∧ (∀ (path sheetName g pf : String) (sh : Sheet) (r0 c0 : Nat),
        find_cell sh consolidatedMatch = some (r0, c0) →
        cons_header_row? sh r0 = none →
        find_cell_from sh r0 (min sh.nRows (r0 + 400)) ppMatch = none →
        nav_net_row? sh r0 = none →
        9 < sh.nCols →
        extract_consolidated path sheetName sh g pf
          = .ok ({ group := g, portfolio := pf, nav := none, cash := none,
                   pp := none, source := path }, []))
    ∧ (∀ (path : String) (wb : List (String × Sheet)) (sh : Sheet) (r c : Nat),
        lookupSheet wb "Retail>5M" = some sh →
        find_cell sh emadMatch = some (r, c) →
        modeB_net_cell? sh r c = none →
        ∃ cashv hds tot, extract_customer_position_mode_b path wb
          = .ok ({ group := "Emad", portfolio := "Emad", nav := none,
                   cash := cashv, pp := none, source := path }, hds, tot)) := by
  refine ⟨?_, ?_, ?_, ?_, ?_⟩
  · intro path sheetName g pf sh hfind
    unfold extract_consolidated
    simp only [hfind]
  · intro path wb sh hsheet hfind
    unfold extract_customer_position_mode_b
    simp only [hsheet, hfind]
  · intro path sheets
    induction sheets with
    | nil => intro _; rfl
    | cons p rest ih =>
        intro hall
        obtain ⟨name, sh⟩ := p
        have hps : posSheet path name sh = .ok none := by
          unfold posSheet
          by_cases hu : lowerStr (pyNormalize name) = "ungrouped"
          · rw [if_pos hu]
          · rw [if_neg hu]
            have hfind : find_cell sh groupSummaryMatch = none := by
              rcases hall (name, sh) (List.mem_cons_self _ _) with h | h
              · exact absurd h hu
              · exact h
            simp only [hfind]
        show (do
          let this ← posSheet path name sh
          let (ss, hh, tt) ← extract_positions_by_group path rest
          match this with
          | none => Except.ok (ss, hh, tt)
          | some (s, h, t) => Except.ok (s :: ss, h ++ hh, t :: tt)) = .ok ([], [], [])
        rw [hps, except_bind_ok,
          ih (fun q hq => hall q (List.mem_cons_of_mem _ hq)), except_bind_ok]
  · intro path sheetName g pf sh r0 c0 hanch hhdr hpp hnav h9
    have hnavscan : navScan sh r0 = .ok none := by
      unfold navScan
      rw [navScanGo_eq sh h9 _ (fun rr hrr => by
        have := List.mem_range'_1.mp hrr
        omega)]
      have hfind : (List.range' (r0 + 1) (sh.nRows - (r0 + 1))).find?
          (fun rr => netRowB sh rr) = none := hnav
      rw [hfind]
    unfold extract_consolidated
    simp only [hanch, hhdr, hpp, Option.getD_none, hnavscan, except_bind_ok]
  · intro path wb sh r c hsheet hanchor hnet
    have hnav : modeB_nav sh r c = none := by
      unfold modeB_nav
      simp only [hnet]
    refine ⟨(if c + 1 < sh.nCols then coerce_number (sh.cell r (c + 1)) else none),
      (if c + 2 < sh.nCols then
        modeB_rows sh (c + 2) (c + 4) none (sh.nRows - (r + 1)) (r + 1) else []),
      { group := "Emad", portfolio := "Emad", total_nav := none,
        total_cash := (if c + 1 < sh.nCols then coerce_number (sh.cell r (c + 1)) else none),
        total_pp := none }, ?_⟩
    unfold extract_customer_position_mode_b
    simp only [hsheet, hanchor, hnav]

/-- Witness for C1 (amended): the consolidated and Mode-B error messages on
anchorless sheets, and the silent-skip outcome, at concrete inputs. -/
theorem extractor_anchor_failfast_witness :
    extract_consolidated "f.xlsx" "S1" noAnchorSheet "CFH" "CFH"
      = .error "Consolidated anchor not found: f.xlsx / S1"
    ∧ extract_customer_position_mode_b "c.xlsx" noEmadWb
      = .error "Client not found: Emad Farah in sheet Retail>5M"
    ∧ extract_positions_by_group "p.xlsx" [("Sheet1", noAnchorSheet)] = .ok ([], [], []) :=
  ⟨extractor_anchor_failfast.1 "f.xlsx" "S1" "CFH" "CFH" noAnchorSheet (by decide),
   extractor_anchor_failfast.2.1 "c.xlsx" noEmadWb noAnchorSheet rfl (by decide),
   extractor_anchor_failfast.2.2.1 "p.xlsx" [("Sheet1", noAnchorSheet)] (by decide)⟩

/-! ## Claim C3: machinery -/

theorem mergeMin_none_right (a : Option (Nat × ℚ)) : mergeMin a none = a := by
  cases a with
  | none => rfl
  | some p => rfl

theorem mergeMin_none_left (a : Option (Nat × ℚ)) : mergeMin none a = a := rfl

theorem mergeMin_some_some (d1 d2 : Nat) (v1 v2 : ℚ) :
    mergeMin (some (d1, v1)) (some (d2, v2))
      = if d1 ≤ d2 then some (d1, v1) else some (d2, v2) := rfl

theorem mergeMin_assoc (a b c : Option (Nat × ℚ)) :
    mergeMin (mergeMin a b) c = mergeMin a (mergeMin b c) := by
  rcases a with - | ⟨d1, v1⟩
  · rw [mergeMin_none_left, mergeMin_none_left]
  rcases b with - | ⟨d2, v2⟩
  · rw [mergeMin_none_right, mergeMin_none_left]
  rcases c with - | ⟨d3, v3⟩
  · rw [mergeMin_none_right, mergeMin_none_right]
  rw [mergeMin_some_some d1 d2 v1 v2, mergeMin_some_some d2 d3 v2 v3]
  by_cases h12 : d1 ≤ d2
  · rw [if_pos h12]
    by_cases h23 : d2 ≤ d3
    · rw [if_pos h23, mergeMin_some_some d1 d3 v1 v3, mergeMin_some_some d1 d2 v1 v2,
        if_pos (by omega : d1 ≤ d3), if_pos h12]
    · rw [if_neg h23]
  · rw [if_neg h12]
    by_cases h23 : d2 ≤ d3
    · rw [if_pos h23, mergeMin_some_some d2 d3 v2 v3, mergeMin_some_some d1 d2 v1 v2,
        if_pos h23, if_neg h12]
    · rw [if_neg h23, mergeMin_some_some d2 d3 v2 v3, mergeMin_some_some d1 d3 v1 v3,
        if_neg h23, if_neg (by omega : ¬ d1 ≤ d3)]

theorem firstMinBy_cons (f : Int × Int → Option ℚ) (o : Int × Int)
    (rest : List (Int × Int)) :
    firstMinBy f (o :: rest) = mergeMin (sing f o) (firstMinBy f rest) := by
  have hcons : firstMinBy f (o :: rest)
      = match f o with
        | none => firstMinBy f rest
        | some v =>
            match firstMinBy f rest with
            | none => some (manh o, v)
            | some (d2, v2) =>
                if manh o ≤ d2 then some (manh o, v) else some (d2, v2) := rfl
  rw [hcons]
  cases hfo : f o with
  | none =>
      have h2 : sing f o = none := by simp only [sing, hfo]
      rw [h2, mergeMin_none_left]
  | some v =>
      have h2 : sing f o = some (manh o, v) := by simp only [sing, hfo]
      rw [h2]
      cases hrest : firstMinBy f rest with
      | none => rfl
      | some p =>
          rcases p with ⟨d2, v2⟩
          rfl

theorem firstMinBy_append (f : Int × Int → Option ℚ) :
    ∀ l1 l2 : List (Int × Int),
      firstMinBy f (l1 ++ l2) = mergeMin (firstMinBy f l1) (firstMinBy f l2) := by
  intro l1
  induction l1 with
  | nil => intro l2; rfl
  | cons o rest ih =>
      intro l2
      rw [List.cons_append, firstMinBy_cons, ih, firstMinBy_cons, mergeMin_assoc]

/-- A single scan-loop step merges the offset contribution into both
first-minimum accumulators (the 10^9 distance sentinel of the loop state
is larger than any offset distance considered). -/
theorem nearStep_mkSt (sh : Sheet) (r c : Nat) (minv : ℚ)
    (q n : Option (Nat × ℚ)) (o : Int × Int) (ho : manh o < 10 ^ 9) :
    nearStep sh r c minv (mkSt q n) o
      = mkSt (mergeMin q (sing (qualAt sh r c minv) o))
             (mergeMin n (sing (numericAt sh r c) o)) := by
  cases hnum : numericAt sh r c o with
  | none =>
      have hstep2 : nearStep sh r c minv (mkSt q n) o = mkSt q n := by
        unfold nearStep
        rw [hnum]
      have hsq : sing (qualAt sh r c minv) o = none := by
        simp only [sing, qualAt, hnum]
      have hsn : sing (numericAt sh r c) o = none := by
        simp only [sing, hnum]
      rw [hstep2, hsq, hsn, mergeMin_none_right, mergeMin_none_right]
  | some v =>
      have hstep2 : nearStep sh r c minv (mkSt q n) o
          = if minv ≤ |v| ∧ manh o < (mkSt q n).bd then
              { (if manh o < (mkSt q n).fd then
                  { mkSt q n with fb := some v, fd := manh o } else mkSt q n) with
                best := some v, bd := manh o }
            else (if manh o < (mkSt q n).fd then
                  { mkSt q n with fb := some v, fd := manh o } else mkSt q n) := by
        unfold nearStep
        rw [hnum]
      rw [hstep2]
      have hsn : sing (numericAt sh r c) o = some (manh o, v) := by
        simp only [sing, hnum]
      by_cases habs : minv ≤ |v|
      · have hsq : sing (qualAt sh r c minv) o = some (manh o, v) := by
          simp only [sing, qualAt, hnum, if_pos habs]
        rw [hsq, hsn]
        rcases q with - | ⟨dq, vq⟩ <;> rcases n with - | ⟨dn, vn⟩
        · rw [if_pos (And.intro habs (show manh o < (mkSt none none).bd from ho)),
            if_pos (show manh o < (mkSt (none : Option (Nat × ℚ)) none).fd from ho)]
          rfl
        · by_cases hn : manh o < dn
          · rw [if_pos (And.intro habs (show manh o < (mkSt none (some (dn, vn))).bd from ho)),
              if_pos (show manh o < (mkSt (none : Option (Nat × ℚ)) (some (dn, vn))).fd from hn),
              mergeMin_none_left, mergeMin_some_some, if_neg (by omega : ¬ dn ≤ manh o)]
            rfl
          · rw [if_pos (And.intro habs (show manh o < (mkSt none (some (dn, vn))).bd from ho)),
              if_neg (show ¬ manh o < (mkSt (none : Option (Nat × ℚ)) (some (dn, vn))).fd from hn),
              mergeMin_none_left, mergeMin_some_some, if_pos (by omega : dn ≤ manh o)]
            rfl
        · by_cases hq : manh o < dq
          · rw [if_pos (And.intro habs (show manh o < (mkSt (some (dq, vq)) none).bd from hq)),
              if_pos (show manh o < (mkSt (some (dq, vq)) (none : Option (Nat × ℚ))).fd from ho),
              mergeMin_none_left, mergeMin_some_some, if_neg (by omega : ¬ dq ≤ manh o)]
            rfl
          · rw [if_neg (show ¬ (minv ≤ |v| ∧ manh o < (mkSt (some (dq, vq)) none).bd) from
                fun hand => hq hand.2),
              if_pos (show manh o < (mkSt (some (dq, vq)) (none : Option (Nat × ℚ))).fd from ho),
              mergeMin_none_left, mergeMin_some_some, if_pos (by omega : dq ≤ manh o)]
            rfl
        · by_cases hq : manh o < dq <;> by_cases hn : manh o < dn
          · rw [if_pos (And.intro habs (show manh o < (mkSt (some (dq, vq)) (some (dn, vn))).bd from hq)),
              if_pos (show manh o < (mkSt (some (dq, vq)) (some (dn, vn))).fd from hn),
              mergeMin_some_some dq (manh o) vq v, mergeMin_some_some dn (manh o) vn v,
              if_neg (by omega : ¬ dq ≤ manh o), if_neg (by omega : ¬ dn ≤ manh o)]
            rfl
          · rw [if_pos (And.intro habs (show manh o < (mkSt (some (dq, vq)) (some (dn, vn))).bd from hq)),
              if_neg (show ¬ manh o < (mkSt (some (dq, vq)) (some (dn, vn))).fd from hn),
              mergeMin_some_some dq (manh o) vq v, mergeMin_some_some dn (manh o) vn v,
              if_neg (by omega : ¬ dq ≤ manh o), if_pos (by omega : dn ≤ manh o)]
            rfl
          · rw [if_neg (show ¬ (minv ≤ |v| ∧ manh o < (mkSt (some (dq, vq)) (some (dn, vn))).bd) from
                fun hand => hq hand.2),
              if_pos (show manh o < (mkSt (some (dq, vq)) (some (dn, vn))).fd from hn),
              mergeMin_some_some dq (manh o) vq v, mergeMin_some_some dn (manh o) vn v,
              if_pos (by omega : dq ≤ manh o), if_neg (by omega : ¬ dn ≤ manh o)]
            rfl
          · rw [if_neg (show ¬ (minv ≤ |v| ∧ manh o < (mkSt (some (dq, vq)) (some (dn, vn))).bd) from
                fun hand => hq hand.2),
              if_neg (show ¬ manh o < (mkSt (some (dq, vq)) (some (dn, vn))).fd from hn),
              mergeMin_some_some dq (manh o) vq v, mergeMin_some_some dn (manh o) vn v,
              if_pos (by omega : dq ≤ manh o), if_pos (by omega : dn ≤ manh o)]
      · have hsq : sing (qualAt sh r c minv) o = none := by
          simp only [sing, qualAt, hnum, if_neg habs]
        rw [hsq, hsn, mergeMin_none_right,
          if_neg (show ¬ (minv ≤ |v| ∧ manh o < (mkSt q n).bd) from fun hand => habs hand.1)]
        rcases n with - | ⟨dn, vn⟩
        · rw [if_pos (show manh o < (mkSt q none).fd from ho), mergeMin_none_left]
          rfl
        · by_cases hn : manh o < dn
          · rw [if_pos (show manh o < (mkSt q (some (dn, vn))).fd from hn),
              mergeMin_some_some, if_neg (by omega : ¬ dn ≤ manh o)]
            rfl
          · rw [if_neg (show ¬ manh o < (mkSt q (some (dn, vn))).fd from hn),
              mergeMin_some_some, if_pos (by omega : dn ≤ manh o)]

theorem fold_nearStep (sh : Sheet) (r c : Nat) (minv : ℚ) :
    ∀ (l : List (Int × Int)) (q n : Option (Nat × ℚ)),
      (∀ o ∈ l, manh o < 10 ^ 9) →
      l.foldl (nearStep sh r c minv) (mkSt q n)
        = mkSt (mergeMin q (firstMinBy (qualAt sh r c minv) l))
               (mergeMin n (firstMinBy (numericAt sh r c) l)) := by
  intro l
  induction l with
  | nil =>
      intro q n _
      show mkSt q n = _
      rw [show firstMinBy (qualAt sh r c minv) [] = none from rfl,
        show firstMinBy (numericAt sh r c) [] = none from rfl,
        mergeMin_none_right, mergeMin_none_right]
  | cons o rest ih =>
      intro q n hd
      rw [List.foldl_cons, nearStep_mkSt sh r c minv q n o (hd o (List.mem_cons_self o rest)),
        ih _ _ (fun o2 ho2 => hd o2 (List.mem_cons_of_mem o ho2)),
        firstMinBy_cons, firstMinBy_cons, mergeMin_assoc, mergeMin_assoc]

theorem sing_eq_none (f : Int × Int → Option ℚ) (o : Int × Int) :
    sing f o = none ↔ f o = none := by
  cases hf : f o with
  | none => simp [sing, hf]
  | some v => simp [sing, hf]

theorem sing_eq_some (f : Int × Int → Option ℚ) (o : Int × Int) (d : Nat) (w : ℚ) :
    sing f o = some (d, w) ↔ (f o = some w ∧ d = manh o) := by
  cases hf : f o with
  | none => simp [sing, hf]
  | some v =>
      simp only [sing, hf, Option.some.injEq, Prod.mk.injEq]
      constructor
      · rintro ⟨h1, h2⟩
        exact ⟨by rw [h2], by omega⟩
      · rintro ⟨h1, h2⟩
        cases h1
        exact ⟨by omega, rfl⟩

theorem mergeMin_eq_none {a b : Option (Nat × ℚ)} :
    mergeMin a b = none ↔ a = none ∧ b = none := by
  rcases a with - | ⟨d1, v1⟩
  · rw [mergeMin_none_left]
    simp
  · rcases b with - | ⟨d2, v2⟩
    · rw [mergeMin_none_right]
      simp
    · rw [mergeMin_some_some]
      constructor
      · intro h
        by_cases h12 : d1 ≤ d2
        · rw [if_pos h12] at h
          cases h
        · rw [if_neg h12] at h
          cases h
      · rintro ⟨h1, -⟩
        cases h1

theorem firstMinBy_eq_none (f : Int × Int → Option ℚ) :
    ∀ l : List (Int × Int), (firstMinBy f l = none ↔ ∀ o ∈ l, f o = none) := by
  intro l
  induction l with
  | nil => simp [firstMinBy]
  | cons o rest ih =>
      rw [firstMinBy_cons, mergeMin_eq_none, sing_eq_none, ih]
      constructor
      · rintro ⟨h1, h2⟩ o2 ho2
        rcases List.mem_cons.mp ho2 with h3 | h3
        · rw [h3]; exact h1
        · exact h2 o2 h3
      · intro h
        exact ⟨h o (List.mem_cons_self o rest),
          fun o2 ho2 => h o2 (List.mem_cons_of_mem o ho2)⟩

theorem firstMinBy_min (f : Int × Int → Option ℚ) :
    ∀ (l : List (Int × Int)) (d : Nat) (v : ℚ), firstMinBy f l = some (d, v) →
      ∀ o ∈ l, ∀ w, f o = some w → d ≤ manh o := by
  intro l
  induction l with
  | nil => intro d v h; cases h
  | cons o2 rest ih =>
      intro d v h o ho w hw
      rw [firstMinBy_cons] at h
      rcases List.mem_cons.mp ho with h3 | h3
      · subst h3
        have hs : sing f o = some (manh o, w) := (sing_eq_some f o (manh o) w).mpr ⟨hw, rfl⟩
        rw [hs] at h
        cases hr : firstMinBy f rest with
        | none =>
            rw [hr, mergeMin_none_right] at h
            simp only [Option.some.injEq, Prod.mk.injEq] at h
            omega
        | some p2 =>
            rcases p2 with ⟨d2, v2⟩
            rw [hr, mergeMin_some_some] at h
            by_cases hle : manh o ≤ d2
            · rw [if_pos hle] at h
              simp only [Option.some.injEq, Prod.mk.injEq] at h
              omega
            · rw [if_neg hle] at h
              simp only [Option.some.injEq, Prod.mk.injEq] at h
              omega
      · cases hs : sing f o2 with
        | none =>
            rw [hs, mergeMin_none_left] at h
            exact ih d v h o h3 w hw
        | some p =>
            rcases p with ⟨ds, vs⟩
            cases hr : firstMinBy f rest with
            | none =>
                rw [hs, hr, mergeMin_none_right] at h
                have : firstMinBy f rest ≠ none := by
                  intro hcon
                  exact absurd hw (by
                    have := (firstMinBy_eq_none f rest).mp hcon o h3
                    simp [this])
                exact absurd hr this
            | some p2 =>
                rcases p2 with ⟨d2, v2⟩
                rw [hs, hr, mergeMin_some_some] at h
                have hd2 := ih d2 v2 hr o h3 w hw
                by_cases hle : ds ≤ d2
                · rw [if_pos hle] at h
                  simp only [Option.some.injEq, Prod.mk.injEq] at h
                  omega
                · rw [if_neg hle] at h
                  simp only [Option.some.injEq, Prod.mk.injEq] at h
                  omega

theorem firstMinBy_split (f : Int × Int → Option ℚ) :
    ∀ (l : List (Int × Int)) (d : Nat) (v : ℚ), firstMinBy f l = some (d, v) →
      ∃ l1 o l2, l = l1 ++ o :: l2 ∧ f o = some v ∧ manh o = d
        ∧ (∀ o2 ∈ l1, ∀ v2, f o2 = some v2 → d < manh o2)
        ∧ (∀ o2 ∈ l2, ∀ v2, f o2 = some v2 → d ≤ manh o2) := by
  intro l
  induction l with
  | nil => intro d v h; cases h
  | cons o rest ih =>
      intro d v h
      rw [firstMinBy_cons] at h
      cases hs : sing f o with
      | none =>
          rw [hs, mergeMin_none_left] at h
          obtain ⟨l1, o2, l2, heq, hf, hm, hbefore, hafter⟩ := ih d v h
          refine ⟨o :: l1, o2, l2, by rw [heq, List.cons_append], hf, hm, ?_, hafter⟩
          intro o3 ho3 v3 hf3
          rcases List.mem_cons.mp ho3 with h3 | h3
          · subst h3
            exact absurd hf3 (by simp [(sing_eq_none f o3).mp hs])
          · exact hbefore o3 h3 v3 hf3
      | some p =>
          rcases p with ⟨ds, vs⟩
          obtain ⟨hfo, hdm⟩ := (sing_eq_some f o ds vs).mp hs
          cases hr : firstMinBy f rest with
          | none =>
              rw [hs, hr, mergeMin_none_right] at h
              simp only [Option.some.injEq, Prod.mk.injEq] at h
              obtain ⟨hd, hv⟩ := h
              refine ⟨[], o, rest, rfl, ?_, ?_, ?_, ?_⟩
              · rw [← hv]; exact hfo
              · omega
              · intro o2 ho2
                cases ho2
              · intro o2 ho2 v2 hf2
                exact absurd hf2 (by simp [(firstMinBy_eq_none f rest).mp hr o2 ho2])
          | some p2 =>
              rcases p2 with ⟨d2, v2⟩
              rw [hs, hr, mergeMin_some_some] at h
              by_cases hle : ds ≤ d2
              · rw [if_pos hle] at h
                simp only [Option.some.injEq, Prod.mk.injEq] at h
                obtain ⟨hd, hv⟩ := h
                refine ⟨[], o, rest, rfl, ?_, ?_, ?_, ?_⟩
                · rw [← hv]; exact hfo
                · omega
                · intro o2 ho2
                  cases ho2
                · intro o2 ho2 v3 hf3
                  have := firstMinBy_min f rest d2 v2 hr o2 ho2 v3 hf3
                  omega
              · rw [if_neg hle] at h
                simp only [Option.some.injEq, Prod.mk.injEq] at h
                obtain ⟨hd, hv⟩ := h
                subst hd
                subst hv
                obtain ⟨l1, o2, l2, heq, hf, hm, hbefore, hafter⟩ := ih d2 v2 hr
                refine ⟨o :: l1, o2, l2, by rw [heq, List.cons_append], hf, hm, ?_, hafter⟩
                intro o3 ho3 v3 hf3
                rcases List.mem_cons.mp ho3 with h3 | h3
                · subst h3
                  rw [hfo] at hf3
                  omega
                · exact hbefore o3 h3 v3 hf3

theorem mem_rangeOff {R : Nat} {x : Int} : x ∈ rangeOff R ↔ -(R : Int) ≤ x ∧ x ≤ R := by
  simp only [rangeOff, List.mem_map, List.mem_range, Int.ofNat_eq_natCast]
  constructor
  · rintro ⟨i, hi, rfl⟩
    omega
  · rintro ⟨h1, h2⟩
    exact ⟨(x + R).toNat, by omega, by omega⟩

theorem mem_boxOffsets {R : Nat} {dr dc : Int} :
    (dr, dc) ∈ boxOffsets R
      ↔ (-(R : Int) ≤ dr ∧ dr ≤ R ∧ -(R : Int) ≤ dc ∧ dc ≤ R) := by
  unfold boxOffsets
  rw [List.mem_flatMap]
  constructor
  · rintro ⟨a, ha, hmem⟩
    rw [List.mem_map] at hmem
    obtain ⟨b, hb, heq⟩ := hmem
    cases heq
    obtain ⟨ha1, ha2⟩ := mem_rangeOff.mp ha
    obtain ⟨hb1, hb2⟩ := mem_rangeOff.mp hb
    exact ⟨ha1, ha2, hb1, hb2⟩
  · rintro ⟨h1, h2, h3, h4⟩
    exact ⟨dr, mem_rangeOff.mpr ⟨h1, h2⟩,
      List.mem_map.mpr ⟨dc, mem_rangeOff.mpr ⟨h3, h4⟩, rfl⟩⟩

theorem manh_le_of_mem_box {R : Nat} {o : Int × Int} (h : o ∈ boxOffsets R) :
    manh o ≤ 2 * R := by
  rcases o with ⟨dr, dc⟩
  obtain ⟨h1, h2, h3, h4⟩ := mem_boxOffsets.mp h
  simp only [manh]
  omega

theorem qualAt_eq_none_of_numericAt {sh : Sheet} {r c : Nat} {minv : ℚ}
    {o : Int × Int} (h : numericAt sh r c o = none) :
    qualAt sh r c minv o = none := by
  simp [qualAt, h]

theorem choose_nearest_eq_firstMin (sh : Sheet) (r c : Nat) (minv : ℚ)
    (radius : Nat) (hrad : 2 * radius < 10 ^ 9) :
    choose_nearest_numeric_threshold sh r c minv radius
      = (match firstMinBy (qualAt sh r c minv) (boxOffsets radius) with
         | some (_, v) => some v
         | none =>
             match firstMinBy (numericAt sh r c) (boxOffsets radius) with
             | some (_, v) => some v
             | none => none) := by
  have hbound : ∀ o ∈ boxOffsets radius, manh o < 10 ^ 9 := fun o ho =>
    lt_of_le_of_lt (manh_le_of_mem_box ho) hrad
  have hfold := fold_nearStep sh r c minv (boxOffsets radius) none none hbound
  rw [mergeMin_none_left, mergeMin_none_left] at hfold
  have hrepr : choose_nearest_numeric_threshold sh r c minv radius
      = (match ((boxOffsets radius).foldl (nearStep sh r c minv)
            (mkSt none none)).best with
         | some v => some v
         | none => ((boxOffsets radius).foldl (nearStep sh r c minv)
            (mkSt none none)).fb) := rfl
  rw [hrepr, hfold]
  cases firstMinBy (qualAt sh r c minv) (boxOffsets radius) with
  | none =>
      cases firstMinBy (numericAt sh r c) (boxOffsets radius) with
      | none => rfl
      | some p => rcases p with ⟨d, v⟩; rfl
  | some p => rcases p with ⟨d, v⟩; rfl

unseal Rat.mul Rat.inv Rat.add Rat.sub Rat.ofScientific in
/-- C3 (counterexample): the claim says the search considers exactly the
cells within Manhattan distance `radius` (a diamond) and returns NaN when
no numeric cell exists there. On `cornerSheet` the only numeric cell sits
at offset (1,1) — Manhattan distance 2, outside the claimed radius-1
diamond — yet the source search (a square box scan) returns it, while the
diamond-restricted search modelled from the claim wording returns NaN. -/
theorem choose_nearest_manhattan_counterexample :
    choose_nearest_numeric_threshold cornerSheet 0 0 1000 1 = some 5000
    ∧ (∀ o ∈ diamondOffsets 1, numericAt cornerSheet 0 0 o = none)
    ∧ choose_nearest_diamond cornerSheet 0 0 1000 1 = none := by
  refine ⟨by decide, by decide, by decide⟩

/-- C3 (amended): the search scans the square (Chebyshev) box of offsets
with both row and column offsets ranging over `-radius..radius` — not the
Manhattan diamond — and returns, among scanned cells, the numeric value of
magnitude at least `minv` at the smallest Manhattan distance, earliest in
scan order on ties; if none qualifies it falls back to the closest numeric
cell regardless of magnitude (same tie-break), and if no numeric cell is
scanned it returns NaN. -/
theorem choose_nearest_spec (sh : Sheet) (r c : Nat) (minv : ℚ) (radius : Nat)
    (hrad : 2 * radius < 10 ^ 9) :
    (∀ dr dc : Int, (dr, dc) ∈ boxOffsets radius
        ↔ (-(radius : Int) ≤ dr ∧ dr ≤ radius
            ∧ -(radius : Int) ≤ dc ∧ dc ≤ radius))
    ∧ (choose_nearest_numeric_threshold sh r c minv radius = none
        ↔ ∀ o ∈ boxOffsets radius, numericAt sh r c o = none)
    ∧ ((∃ o ∈ boxOffsets radius, qualAt sh r c minv o ≠ none) →
        ∃ l1 o l2 v, boxOffsets radius = l1 ++ o :: l2
          ∧ qualAt sh r c minv o = some v
          ∧ choose_nearest_numeric_threshold sh r c minv radius = some v
          ∧ (∀ o2 ∈ l1, ∀ w, qualAt sh r c minv o2 = some w → manh o < manh o2)
          ∧ (∀ o2 ∈ l2, ∀ w, qualAt sh r c minv o2 = some w → manh o ≤ manh o2))
    ∧ ((∀ o ∈ boxOffsets radius, qualAt sh r c minv o = none) →
        (∃ o ∈ boxOffsets radius, numericAt sh r c o ≠ none) →
        ∃ l1 o l2 v, boxOffsets radius = l1 ++ o :: l2
          ∧ numericAt sh r c o = some v
          ∧ choose_nearest_numeric_threshold sh r c minv radius = some v
          ∧ (∀ o2 ∈ l1, ∀ w, numericAt sh r c o2 = some w → manh o < manh o2)
          ∧ (∀ o2 ∈ l2, ∀ w, numericAt sh r c o2 = some w → manh o ≤ manh o2)) := by
  have hc := choose_nearest_eq_firstMin sh r c minv radius hrad
  refine ⟨fun dr dc => mem_boxOffsets, ?_, ?_, ?_⟩
  · rw [hc]
    constructor
    · intro h o ho
      cases hq : firstMinBy (qualAt sh r c minv) (boxOffsets radius) with
      | some p =>
          rcases p with ⟨d, v⟩
          rw [hq] at h
          cases h
      | none =>
          cases hn : firstMinBy (numericAt sh r c) (boxOffsets radius) with
          | some p =>
              rcases p with ⟨d, v⟩
              rw [hq, hn] at h
              cases h
          | none =>
              exact (firstMinBy_eq_none (numericAt sh r c) (boxOffsets radius)).mp hn o ho
    · intro h
      have hn : firstMinBy (numericAt sh r c) (boxOffsets radius) = none :=
        (firstMinBy_eq_none _ _).mpr h
      have hq : firstMinBy (qualAt sh r c minv) (boxOffsets radius) = none :=
        (firstMinBy_eq_none _ _).mpr
          (fun o ho => qualAt_eq_none_of_numericAt (h o ho))
      rw [hq, hn]
  · rintro ⟨o0, ho0, hne⟩
    cases hq : firstMinBy (qualAt sh r c minv) (boxOffsets radius) with
    | none =>
        exact absurd ((firstMinBy_eq_none _ _).mp hq o0 ho0) hne
    | some p =>
        rcases p with ⟨d, v⟩
        obtain ⟨l1, o, l2, heq, hf, hm, hbefore, hafter⟩ :=
          firstMinBy_split (qualAt sh r c minv) (boxOffsets radius) d v hq
        refine ⟨l1, o, l2, v, heq, hf, by rw [hc, hq], ?_, ?_⟩
        · intro o2 ho2 w hw
          have := hbefore o2 ho2 w hw
          omega
        · intro o2 ho2 w hw
          have := hafter o2 ho2 w hw
          omega
  · intro hqall
    rintro ⟨o0, ho0, hne⟩
    have hq : firstMinBy (qualAt sh r c minv) (boxOffsets radius) = none :=
      (firstMinBy_eq_none _ _).mpr hqall
    cases hn : firstMinBy (numericAt sh r c) (boxOffsets radius) with
    | none =>
        exact absurd ((firstMinBy_eq_none _ _).mp hn o0 ho0) hne
    | some p =>
        rcases p with ⟨d, v⟩
        obtain ⟨l1, o, l2, heq, hf, hm, hbefore, hafter⟩ :=
          firstMinBy_split (numericAt sh r c) (boxOffsets radius) d v hn
        refine ⟨l1, o, l2, v, heq, hf, by rw [hc, hq, hn], ?_, ?_⟩
        · intro o2 ho2 w hw
          have := hbefore o2 ho2 w hw
          omega
        · intro o2 ho2 w hw
          have := hafter o2 ho2 w hw
          omega

unseal Rat.mul Rat.inv Rat.add Rat.sub Rat.ofScientific in
/-- C3 witness: the amended theorem applied at the 1 by 1 blank sheet with
radius 1; no numeric cell is scanned, so the search returns NaN. -/
theorem choose_nearest_spec_witness :
    choose_nearest_numeric_threshold blankSheet 0 0 1000 1 = none :=
  (choose_nearest_spec blankSheet 0 0 1000 1 (by norm_num)).2.1.mpr (by decide)

theorem clLt_irrefl : ∀ a : List Char, clLt a a = false := by
  intro a
  induction a with
  | nil => rfl
  | cons ah atl ih =>
      simp only [clLt]
      rw [if_neg (by omega : ¬ ah.toNat < ah.toNat),
        if_neg (by omega : ¬ ah.toNat < ah.toNat)]
      exact ih

theorem clLt_trans : ∀ a b c : List Char,
    clLt a b = true → clLt b c = true → clLt a c = true := by
  intro a
  induction a with
  | nil =>
      intro b c h1 h2
      cases b with
      | nil => cases h1
      | cons bh btl =>
          cases c with
          | nil => cases h2
          | cons chh ctl => rfl
  | cons ah atl ih =>
      intro b c h1 h2
      cases b with
      | nil => cases h1
      | cons bh btl =>
          cases c with
          | nil => cases h2
          | cons chh ctl =>
              simp only [clLt] at h1 h2 ⊢
              by_cases hab : ah.toNat < bh.toNat
              · by_cases hbc : bh.toNat < chh.toNat
                · rw [if_pos (by omega : ah.toNat < chh.toNat)]
                · by_cases hcb : chh.toNat < bh.toNat
                  · rw [if_neg hbc, if_pos hcb] at h2
                    cases h2
                  · rw [if_pos (by omega : ah.toNat < chh.toNat)]
              · by_cases hba : bh.toNat < ah.toNat
                · rw [if_neg hab, if_pos hba] at h1
                  cases h1
                · rw [if_neg hab, if_neg hba] at h1
                  by_cases hbc : bh.toNat < chh.toNat
                  · rw [if_pos (by omega : ah.toNat < chh.toNat)]
                  · by_cases hcb : chh.toNat < bh.toNat
                    · rw [if_neg hbc, if_pos hcb] at h2
                      cases h2
                    · rw [if_neg hbc, if_neg hcb] at h2
                      rw [if_neg (by omega : ¬ ah.toNat < chh.toNat),
                        if_neg (by omega : ¬ chh.toNat < ah.toNat)]
                      exact ih btl ctl h1 h2

theorem clLt_conn : ∀ a b : List Char, clLt a b = false → clLt b a = false → a = b := by
  intro a
  induction a with
  | nil =>
      intro b h1 h2
      cases b with
      | nil => rfl
      | cons bh btl => cases h1
  | cons ah atl ih =>
      intro b h1 h2
      cases b with
      | nil => cases h2
      | cons bh btl =>
          simp only [clLt] at h1 h2
          by_cases hab : ah.toNat < bh.toNat
          · rw [if_pos hab] at h1
            cases h1
          · by_cases hba : bh.toNat < ah.toNat
            · rw [if_pos hba] at h2
              cases h2
            · rw [if_neg hab, if_neg hba] at h1
              rw [if_neg hba, if_neg hab] at h2
              have hn : ah.toNat = bh.toNat := by omega
              have hch : ah = bh := Char.ext (UInt32.ext hn)
              rw [hch, ih btl h1 h2]

theorem strLeB_total (a b : String) : strLeB a b = true ∨ strLeB b a = true := by
  cases h : clLt b.data a.data with
  | false =>
      left
      unfold strLeB
      rw [h]
      rfl
  | true =>
      right
      unfold strLeB
      cases h2 : clLt a.data b.data with
      | false => rfl
      | true =>
          have h3 := clLt_trans a.data b.data a.data h2 h
          rw [clLt_irrefl] at h3
          cases h3

theorem strLeB_trans (a b c : String) (h1 : strLeB a b = true)
    (h2 : strLeB b c = true) : strLeB a c = true := by
  unfold strLeB at h1 h2 ⊢
  have h1' : clLt b.data a.data = false := by
    cases h : clLt b.data a.data
    · rfl
    · rw [h] at h1
      cases h1
  have h2' : clLt c.data b.data = false := by
    cases h : clLt c.data b.data
    · rfl
    · rw [h] at h2
      cases h2
  cases h : clLt c.data a.data with
  | false => rfl
  | true =>
      cases hab : clLt a.data b.data with
      | false =>
          have he := clLt_conn a.data b.data hab h1'
          rw [he] at h
          rw [h] at h2'
          cases h2'
      | true =>
          have h3 := clLt_trans c.data a.data b.data h hab
          rw [h3] at h2'
          cases h2'

theorem strLt_of_le_ne {a b : String} (h1 : strLeB a b = true) (h2 : a ≠ b) :
    strLtB a b = true := by
  unfold strLeB at h1
  unfold strLtB
  have h1' : clLt b.data a.data = false := by
    cases h : clLt b.data a.data
    · rfl
    · rw [h] at h1
      cases h1
  cases h : clLt a.data b.data with
  | true => rfl
  | false =>
      exfalso
      apply h2
      have hd := clLt_conn a.data b.data h h1'
      cases a
      cases b
      simp_all

theorem rowLt3_of_rowLe_tick {a b : MatrixRow} (h : rowLe a b) (ht : tickLt a b) :
    rowLt3 a b := by
  rcases h with h | ⟨he, hle⟩
  · exact Or.inl h
  · rcases lt_or_eq_of_le hle with hlt | heq
    · exact Or.inr ⟨he, Or.inl hlt⟩
    · exact Or.inr ⟨he, Or.inr ⟨heq.symm, ht⟩⟩

theorem rowLt3_glue {a b y : MatrixRow} (h : rowLe a b) (hby : rowLt3 b y)
    (ht : tickLt a y) : rowLt3 a y := by
  rcases h with h1 | ⟨he, hle⟩
  · rcases hby with h2 | ⟨he2, h2⟩
    · exact Or.inl (by omega)
    · exact Or.inl (by omega)
  · rcases hby with h2 | ⟨he2, h2⟩
    · exact Or.inl (by omega)
    · refine Or.inr ⟨by omega, ?_⟩
      rcases h2 with h3 | ⟨he3, h3⟩
      · exact Or.inl (lt_of_lt_of_le h3 hle)
      · rcases lt_or_eq_of_le hle with h4 | h4
        · rw [he3] at h4
          exact Or.inl h4
        · exact Or.inr ⟨h4.symm.trans he3, ht⟩

theorem rowLt3_of_not_rowLe {a b : MatrixRow} (h : ¬ rowLe a b) : rowLt3 b a := by
  unfold rowLe at h
  push_neg at h
  obtain ⟨h1, h2⟩ := h
  rcases Nat.lt_or_ge (MatrixRow.presence_count a) (MatrixRow.presence_count b)
    with hlt | hge
  · exact Or.inl hlt
  · have he : MatrixRow.presence_count a = MatrixRow.presence_count b := by omega
    exact Or.inr ⟨he.symm, Or.inl (h2 he)⟩

theorem orderedInsert_pairwise_rowLt (a : MatrixRow) :
    ∀ s : List MatrixRow, s.Pairwise rowLt3 → (∀ y ∈ s, tickLt a y) →
      (List.orderedInsert rowLe a s).Pairwise rowLt3 := by
  intro s
  induction s with
  | nil =>
      intro _ _
      simp
  | cons b s ih =>
      intro hp ha
      rcases List.pairwise_cons.mp hp with ⟨hb, hs⟩
      have hoi : List.orderedInsert rowLe a (b :: s)
          = if rowLe a b then a :: b :: s else b :: List.orderedInsert rowLe a s := rfl
      rw [hoi]
      by_cases hab : rowLe a b
      · rw [if_pos hab]
        refine List.pairwise_cons.mpr ⟨?_, hp⟩
        intro y hy
        rcases List.mem_cons.mp hy with rfl | hy2
        · exact rowLt3_of_rowLe_tick hab (ha y (List.mem_cons_self _ _))
        · exact rowLt3_glue hab (hb y hy2) (ha y (List.mem_cons_of_mem b hy2))
      · rw [if_neg hab]
        refine List.pairwise_cons.mpr
          ⟨?_, ih hs (fun y hy => ha y (List.mem_cons_of_mem b hy))⟩
        intro y hy
        rcases (List.mem_orderedInsert rowLe).mp hy with rfl | hy2
        · exact rowLt3_of_not_rowLe hab
        · exact hb y hy2

theorem insertionSort_pairwise_rowLt :
    ∀ rows : List MatrixRow, rows.Pairwise tickLt →
      (List.insertionSort rowLe rows).Pairwise rowLt3 := by
  intro rows
  induction rows with
  | nil => intro h; exact List.Pairwise.nil
  | cons a l ih =>
      intro hp
      rcases List.pairwise_cons.mp hp with ⟨ha, hl⟩
      have hins : List.insertionSort rowLe (a :: l)
          = List.orderedInsert rowLe a (List.insertionSort rowLe l) := rfl
      rw [hins]
      exact orderedInsert_pairwise_rowLt a _ (ih hl)
        (fun y hy => ha y ((List.perm_insertionSort rowLe l).subset hy))

unseal Rat.mul Rat.inv Rat.add Rat.sub Rat.ofScientific in
/-- C2 (counterexample): the claim says remaining ties are broken by stable
input order. `tieHoldings` lists ticker ZZZ before AAA with equal weights in
the same portfolio, so both rows tie on presence count and weight sum; the
source pivots first, and the pivot index sort puts AAA before ZZZ — the
opposite of input order. -/
theorem presence_matrix_tie_order_counterexample :
    tieHoldings.map Holding.ticker = ["ZZZ", "AAA"]
    ∧ (build_presence_matrix tieHoldings ["P"]).map MatrixRow.ticker
        = ["AAA", "ZZZ"]
    ∧ (build_presence_matrix tieHoldings ["P"]).map MatrixRow.presence_count
        = [1, 1]
    ∧ (build_presence_matrix tieHoldings ["P"]).map sumw = [5, 5] := by
  refine ⟨by decide, by decide, by decide, by decide⟩

/-- C2 (amended): the presence matrix has one row per distinct ticker
(its ticker column is a permutation of the deduplicated input tickers);
each row's portfolio cells are the pivot cells `cellFor` (sum of
weight_ratio*100 over that ticker/portfolio pair, NaN when the pair has no
rows), `presence_count` counts portfolios with at least one such pair, the
presence string is `"count/total"`, and rows are strictly ordered by
descending presence count, then descending weight sum, remaining ties in
ascending ticker order — not input order. -/
theorem presence_matrix_spec (hs : List Holding) (ports : List String) :
    ((build_presence_matrix hs ports).map MatrixRow.ticker).Perm
        ((hs.map Holding.ticker).dedup)
    ∧ (∀ row ∈ build_presence_matrix hs ports,
        MatrixRow.cells row = ports.map (cellFor hs (MatrixRow.ticker row)))
    ∧ (∀ row ∈ build_presence_matrix hs ports,
        MatrixRow.presence_count row = pcFor hs ports (MatrixRow.ticker row))
    ∧ (∀ row ∈ build_presence_matrix hs ports,
        MatrixRow.presence row
          = toString (pcFor hs ports (MatrixRow.ticker row)) ++ "/"
            ++ toString ports.length)
    ∧ (build_presence_matrix hs ports).Pairwise rowLt3 := by
  by_cases hemp : hs.isEmpty = true
  · have h0 : build_presence_matrix hs ports = [] := by
      unfold build_presence_matrix
      rw [if_pos hemp]
    have h0' : hs = [] := List.isEmpty_iff.mp hemp
    subst h0'
    rw [h0]
    refine ⟨by simp, ?_, ?_, ?_, List.Pairwise.nil⟩
    · intro row hrow
      cases hrow
    · intro row hrow
      cases hrow
    · intro row hrow
      cases hrow
  · have hbuild : build_presence_matrix hs ports
        = List.insertionSort rowLe
            ((List.insertionSort (fun a b : String => strLeB a b = true)
              ((hs.map Holding.ticker).dedup)).map (mkMatrixRow hs ports)) := by
      unfold build_presence_matrix
      rw [if_neg hemp]
    have hmem : ∀ row ∈ build_presence_matrix hs ports,
        ∃ t, row = mkMatrixRow hs ports t := by
      intro row hrow
      rw [hbuild] at hrow
      have h2 := (List.perm_insertionSort rowLe _).subset hrow
      obtain ⟨t, ht, hteq⟩ := List.mem_map.mp h2
      exact ⟨t, hteq.symm⟩
    refine ⟨?_, ?_, ?_, ?_, ?_⟩
    · rw [hbuild]
      have p1 := (List.perm_insertionSort rowLe
          ((List.insertionSort (fun a b : String => strLeB a b = true)
            ((hs.map Holding.ticker).dedup)).map (mkMatrixRow hs ports))).map
          MatrixRow.ticker
      have p2 : ((List.insertionSort (fun a b : String => strLeB a b = true)
            ((hs.map Holding.ticker).dedup)).map (mkMatrixRow hs ports)).map
            MatrixRow.ticker
          = List.insertionSort (fun a b : String => strLeB a b = true)
              ((hs.map Holding.ticker).dedup) := by
        rw [List.map_map]
        exact List.map_id _
      have p3 := List.perm_insertionSort (fun a b : String => strLeB a b = true)
          ((hs.map Holding.ticker).dedup)
      rw [p2] at p1
      exact p1.trans p3
    · intro row hrow
      obtain ⟨t, rfl⟩ := hmem row hrow
      rfl
    · intro row hrow
      obtain ⟨t, rfl⟩ := hmem row hrow
      rfl
    · intro row hrow
      obtain ⟨t, rfl⟩ := hmem row hrow
      rfl
    · rw [hbuild]
      apply insertionSort_pairwise_rowLt
      apply List.pairwise_map.mpr
      haveI : IsTotal String (fun a b : String => strLeB a b = true) :=
        ⟨strLeB_total⟩
      haveI : IsTrans String (fun a b : String => strLeB a b = true) :=
        ⟨strLeB_trans⟩
      have hnd : (List.insertionSort (fun a b : String => strLeB a b = true)
          ((hs.map Holding.ticker).dedup)).Nodup :=
        (List.perm_insertionSort _ _).nodup_iff.mpr (List.nodup_dedup _)
      have hsorted : (List.insertionSort (fun a b : String => strLeB a b = true)
          ((hs.map Holding.ticker).dedup)).Pairwise
            (fun a b : String => strLeB a b = true) :=
        List.sorted_insertionSort _ _
      exact (hsorted.and hnd).imp (fun h => strLt_of_le_ne h.1 h.2)

unseal Rat.mul Rat.inv Rat.add Rat.sub Rat.ofScientific in
/-- C2 witness: the amended theorem applied to the three-portfolio demo
holdings; the AAA row (held by P1 and P2 of three portfolios) carries the
presence string built from its presence count, here "2/3". -/
theorem presence_matrix_spec_witness :
    MatrixRow.presence (mkMatrixRow demoHoldings demoPorts "AAA")
      = toString (pcFor demoHoldings demoPorts
          (MatrixRow.ticker (mkMatrixRow demoHoldings demoPorts "AAA"))) ++ "/"
        ++ toString demoPorts.length :=
  (presence_matrix_spec demoHoldings demoPorts).2.2.2.1
    (mkMatrixRow demoHoldings demoPorts "AAA") (by decide)

end CCG
